import Mathlib

/-! MolAlign: alignment of molecular conformations.

A shallow embedding of `Code/GraphMol/MolAlign/AlignMolecules.cpp`.

* Scalars (`double`) are elements of an arbitrary linearly ordered field `K`
  (exact arithmetic; `ℚ` for evaluation, `ℝ` with `Real.sqrt` for the real
  numbers).  `sqrt` is a field of the environment.
* A molecule passed by non-const reference is passed in and handed back
  (`Outcome.mol`), also when the call throws: the caller of the C++ function sees
  the molecule in the state it had when the exception left the function.
* A `Conformer &` obtained from `getConformer` is the position of that conformer
  in the molecule's conformer list; a `Point3D const *` is an atom index into a
  conformer's position vector, read again at every use.
* Code the file calls but does not contain (the substructure matcher, the
  point-set aligner, the conformer store, the molecular graph) is either a field
  of `Env` or a definition marked as modelled from the specification.
* The probe and the reference molecule are distinct objects.
-/

set_option linter.unusedSectionVars false
set_option linter.unusedVariables false

namespace RDKit
namespace MolAlign

/-! ## Data model -/

/-- Exceptions that leave the functions of this file: `MolAlignException`
(thrown by the file itself), `ConformerException` (conformer store) and
`Invar::Invariant` (`PRECONDITION`, `CHECK_INVARIANT`, `URANGE_CHECK`). -/
inductive Exn where
  | MolAlignException
  | ConformerException
  | Invariant
deriving DecidableEq, Repr

/-- The type `RDGeom::Point3D`: a point with three coordinates. -/
structure Point3D (K : Type) where
  x : K
  y : K
  z : K
deriving DecidableEq, Repr

/-- The type `MatchVectType`: a vector of (probe atom index, reference atom index)
pairs. -/
abbrev MatchVectType := List (Nat × Nat)

/-- A conformer: its id and the positions of its atoms. -/
structure Conformer (K : Type) where
  id : Nat
  positions : List (Point3D K)
deriving DecidableEq, Repr

/-- A molecule: its graph (atoms, bonds, properties: the type `G`) and its
conformers in storage order. -/
structure ROMol (G K : Type) where
  graph : G
  confs : List (Conformer K)

/-- What a call leaves behind: the value returned or the exception thrown, and the
molecule that was passed by non-const reference. -/
structure Outcome (G K A : Type) where
  result : Except Exn A
  mol : ROMol G K

/-- What a call of `alignMolConformers` leaves behind: `RMSlist` is the collector
(`none` when the caller passed a null pointer). -/
structure ConfOutcome (G K : Type) where
  result : Except Exn Unit
  mol : ROMol G K
  RMSlist : Option (List K)

/-- The code this file calls without containing it. `T` is `RDGeom::Transform3D`.
* `sqrt`: the square root on `double`.
* `alignSolve`: the numeric part of `RDNumeric::Alignments::AlignPoints`
  (reference points, probe points, weights, reflect, maxIterations): the sum of
  squared residuals and the transform.
* `TransformPoint`: `Transform3D::TransformPoint`.
* `SubstructMatch`: the overload that collects all matches (mol, query, uniquify,
  recursionPossible, useChirality, useQueryQueryMatches, maxMatches).
* `SubstructMatchOne`: the overload that yields one match (mol, query,
  recursionPossible, useChirality, useQueryQueryMatches); `none` when it returns
  false.
* `qry`: the parsed symmetrization pattern (`none`: a null pointer).
* `qryMatches`: `SubstructMatch(mol, *qry)`; the pattern has two atoms, a match
  carries the pairs `match[0]` and `match[1]`.
* `setFormalCharge`, `getBondBetweenAtoms`, `replaceBond`: graph edits
  (`replaceBond g b` puts the single-or-double query bond at bond index `b`).
* `defWeights`, `defReflect`, `defMaxIterations`: the default arguments that the
  header gives `alignMol`. -/
structure Env (G T K : Type) where
  sqrt : K → K
  alignSolve : List (Point3D K) → List (Point3D K) → Option (List K) → Bool → Nat → K × T
  TransformPoint : T → Point3D K → Point3D K
  SubstructMatch : ROMol G K → ROMol G K → Bool → Bool → Bool → Bool → Int → List MatchVectType
  SubstructMatchOne : ROMol G K → ROMol G K → Bool → Bool → Bool → Option MatchVectType
  qry : Option (ROMol G K)
  qryMatches : ROMol G K → ROMol G K → List ((Nat × Nat) × (Nat × Nat))
  setFormalCharge : G → Nat → Int → G
  getBondBetweenAtoms : G → Nat → Nat → Option Nat
  replaceBond : G → Nat → G
  defWeights : Option (List K)
  defReflect : Bool
  defMaxIterations : Nat

variable {G T K : Type} [LinearOrderedField K]

/-- Modelled from the spec: `Point3D::operator-`, the componentwise difference of
two points (the point class is not in the file). -/
def Point3D.sub (p q : Point3D K) : Point3D K :=
  ⟨p.x - q.x, p.y - q.y, p.z - q.z⟩

/-- Modelled from the spec: `Point3D::lengthSq`, the squared Euclidean norm (the
point class is not in the file). -/
def Point3D.lengthSq (p : Point3D K) : K :=
  p.x * p.x + p.y * p.y + p.z * p.z

/-- Conversion of an `unsigned int` to `int` (two's complement, 32 bits). -/
def toInt (u : Nat) : Int :=
  if u % 2 ^ 32 < 2 ^ 31 then ((u % 2 ^ 32 : Nat) : Int) else ((u % 2 ^ 32 : Nat) : Int) - 2 ^ 32

/-- Modelled from the spec: `numConformations()` of the conformer store, the number
of conformers stored on the molecule. -/
def ROMol.getNumConformers (mol : ROMol G K) : Nat := mol.confs.length

/-- Modelled from the spec: the search that `getConformer(id)` makes (the conformer
store is not in the file), for the first conformer carrying the id `cid`; `i` is
the position of the head of the list. -/
def findConf (cid : Nat) : Nat → List (Conformer K) → Except Exn (Nat × Conformer K)
  | _, [] => .error .ConformerException
  | i, c :: rest => if c.id = cid then .ok (i, c) else findConf cid (i + 1) rest

/-- Modelled from the spec: the conformer store's `getConformer(id)`, as a
reference: the position of the conformer in storage order together with its
current value. A molecule without conformers has none to return; a negative id
names the first stored conformer; any other id names the first stored conformer
carrying it, and the call fails when there is none (InvalidConformationId). -/
def ROMol.getConformerRef (mol : ROMol G K) (id : Int) : Except Exn (Nat × Conformer K) :=
  match mol.confs with
  | [] => .error .ConformerException
  | c0 :: _ => if id < 0 then .ok (0, c0) else findConf id.toNat 0 mol.confs

/-- Modelled from the spec: `getConformer(id)` read as a value. -/
def ROMol.getConformer (mol : ROMol G K) (id : Int) : Except Exn (Conformer K) :=
  match mol.getConformerRef id with
  | .error e => .error e
  | .ok (_, c) => .ok c

/-- Modelled from the spec: `Conformer::getAtomPos`, range-checked access to the
position of an atom. -/
def Conformer.getAtomPos (conf : Conformer K) (atomId : Nat) : Except Exn (Point3D K) :=
  match conf.positions[atomId]? with
  | some p => .ok p
  | none => .error .Invariant

/-- Modelled from the spec: `Conformer::getNumAtoms`, the number of positions of the
conformer (the conformer class is not in the file). -/
def Conformer.getNumAtoms (conf : Conformer K) : Nat := conf.positions.length

/-- Modelled from the spec: `MolTransforms::transformConformer`, the transform
applied to every point of the conformer. -/
def transformConformer (env : Env G T K) (conf : Conformer K) (trans : T) : Conformer K :=
  ⟨conf.id, conf.positions.map (env.TransformPoint trans)⟩

/-- Writing through a `Conformer &`: the conformer at position `i` is replaced. -/
def ROMol.setConf (mol : ROMol G K) (i : Nat) (c : Conformer K) : ROMol G K :=
  ⟨mol.graph, mol.confs.set i c⟩

/-- Modelled from the spec: `RDNumeric::Alignments::AlignPoints` (PointSetAligner).
The two point lists must have the same length and a weight vector must have that
length too (DimensionMismatch, raised before any numeric work); then the solver
yields the sum of squared residuals and the transform. -/
def AlignPoints (env : Env G T K) (refPoints probePoints : List (Point3D K))
    (weights : Option (List K)) (reflect : Bool) (maxIterations : Nat) : Except Exn (K × T) :=
  if refPoints.length ≠ probePoints.length then .error .Invariant
  else
    match weights with
    | some w =>
      if w.length ≠ refPoints.length then .error .Invariant
      else .ok (env.alignSolve refPoints probePoints weights reflect maxIterations)
    | none => .ok (env.alignSolve refPoints probePoints weights reflect maxIterations)

/-! ## getAlignmentTransform, alignMol -/

/-- The loops at lines 41-44 and 51-54 (and 195-198): for every pair, the probe
position is pushed on `prbPoints` and the reference position on `refPoints`.
The result is `(refPoints, prbPoints)`. -/
def collectPoints (prbCnf refCnf : Conformer K) :
    MatchVectType → Except Exn (List (Point3D K) × List (Point3D K))
  | [] => .ok ([], [])
  | mi :: rest =>
    match prbCnf.getAtomPos mi.1 with
    | .error e => .error e
    | .ok ppt =>
      match refCnf.getAtomPos mi.2 with
      | .error e => .error e
      | .ok rpt =>
        match collectPoints prbCnf refCnf rest with
        | .error e => .error e
        | .ok (refPoints, prbPoints) => .ok (rpt :: refPoints, ppt :: prbPoints)

/-- The function `getAlignmentTransform` (lines 24-60): the RMS and the transform. -/
def getAlignmentTransform (env : Env G T K) (prbMol refMol : ROMol G K)
    (prbCid refCid : Int) (atomMap : Option MatchVectType) (weights : Option (List K))
    (reflect : Bool) (maxIterations : Nat) : Except Exn (K × T) :=
  match prbMol.getConformer prbCid with
  | .error e => .error e
  | .ok prbCnf =>
    match refMol.getConformer refCid with
    | .error e => .error e
    | .ok refCnf =>
      let pts : Except Exn (List (Point3D K) × List (Point3D K)) :=
        match atomMap with
        | none =>
          match env.SubstructMatchOne refMol prbMol true false true with
          | some m => collectPoints prbCnf refCnf m
          | none => .error .MolAlignException
        | some m => collectPoints prbCnf refCnf m
      match pts with
      | .error e => .error e
      | .ok (refPoints, prbPoints) =>
        match AlignPoints env refPoints prbPoints weights reflect maxIterations with
        | .error e => .error e
        | .ok (ssr, tr) => .ok (env.sqrt (ssr / (prbPoints.length : K)), tr)

/-- The function `alignMol` (lines 62-73): the RMS and the probe molecule with the
conformer `prbCid` transformed. Nothing is written before the last statement, so
a call that throws leaves the probe as it was. -/
def alignMol (env : Env G T K) (prbMol refMol : ROMol G K)
    (prbCid refCid : Int) (atomMap : Option MatchVectType) (weights : Option (List K))
    (reflect : Bool) (maxIterations : Nat) : Except Exn (K × ROMol G K) :=
  match getAlignmentTransform env prbMol refMol prbCid refCid atomMap weights reflect
      maxIterations with
  | .error e => .error e
  | .ok (res, tr) =>
    match prbMol.getConformerRef prbCid with
    | .error e => .error e
    | .ok (i, conf) => .ok (res, prbMol.setConf i (transformConformer env conf tr))

/-! ## symmetrizeTerminalAtoms -/

/-- The loop of lines 95-100 over the matches of the symmetrization pattern: the
formal charge of the atom `match[0].second` is set to 0 and the bond between
`match[0].second` and `match[1].second` is replaced by the query bond. -/
def symmetrizeLoop (env : Env G T K) :
    List ((Nat × Nat) × (Nat × Nat)) → ROMol G K → Except Exn (ROMol G K)
  | [], mol => .ok mol
  | m :: rest, mol =>
    let g1 := env.setFormalCharge mol.graph m.1.2 0
    match env.getBondBetweenAtoms g1 m.1.2 m.2.2 with
    | none => .error .Invariant
    | some obond => symmetrizeLoop env rest ⟨env.replaceBond g1 obond, mol.confs⟩

/-- The function `symmetrizeTerminalAtoms` (lines 76-101). -/
def symmetrizeTerminalAtoms (env : Env G T K) (mol : ROMol G K) : Except Exn (ROMol G K) :=
  match env.qry with
  | none => .error .Invariant
  | some qry => symmetrizeLoop env (env.qryMatches mol qry) mol

/-! ## getBestRMS, CalcRMS -/

/-- The loop `for (auto &matche : matches)` of lines 137-143 and of lines 190-218.
`body` is what one iteration computes from the molecule passed by reference and
the candidate: its RMS and the molecule afterwards. `n` iterations remain, the
iterator stands at position `i` of the vector `ms`. The reference `bestMatch` is
bound to `matches[0]`, so the assignment `bestMatch = matche` copies the candidate
into element 0 of the vector. When an iteration throws, the molecule is in the
state the earlier iterations left. -/
def bestLoop {S : Type} (body : S → MatchVectType → Except Exn (K × S)) :
    Nat → Nat → List MatchVectType → K → S → Except Exn (K × List MatchVectType) × S
  | 0, _, ms, bestRMS, s => (.ok (bestRMS, ms), s)
  | n + 1, i, ms, bestRMS, s =>
    match ms[i]? with
    | none => (.ok (bestRMS, ms), s)
    | some matche =>
      match body s matche with
      | .error e => (.error e, s)
      | .ok (rms, s1) =>
        if rms < bestRMS then bestLoop body n (i + 1) (ms.set 0 matche) rms s1
        else bestLoop body n (i + 1) ms bestRMS s1

/-- The function `getBestRMS` (lines 104-150). The warning written to `std::cerr`
for more than 1e6 matches is not part of the outcome. The check of line 121 is
the case of an empty vector after the lookup (a non-empty `map` is never empty
there). The address test of line 146 compares element 0 with the last element. -/
def getBestRMS (env : Env G T K) (probeMol refMol : ROMol G K) (probeId refId : Int)
    (map : List MatchVectType) (maxMatches : Int)
    (symmetrizeConjugatedTerminalGroups : Bool) : Outcome G K K :=
  let found : Except Exn (List MatchVectType) :=
    if map.isEmpty then
      let probeQuery : Except Exn (ROMol G K) :=
        if symmetrizeConjugatedTerminalGroups then symmetrizeTerminalAtoms env probeMol
        else .ok probeMol
      match probeQuery with
      | .error e => .error e
      | .ok q => .ok (env.SubstructMatch refMol q false true false false maxMatches)
    else .ok map
  match found with
  | .error e => ⟨.error e, probeMol⟩
  | .ok [] => ⟨.error .MolAlignException, probeMol⟩
  | .ok (m0 :: rest) =>
    match bestLoop
        (fun prb matche => alignMol env prb refMol probeId refId (some matche)
          env.defWeights env.defReflect env.defMaxIterations)
        (m0 :: rest).length 0 (m0 :: rest) 1e300 probeMol with
    | (.error e, prb) => ⟨.error e, prb⟩
    | (.ok (bestRMS, ms), prb) =>
      if 0 ≠ ms.length - 1 then
        match alignMol env prb refMol probeId refId (some (ms.headD []))
            env.defWeights env.defReflect env.defMaxIterations with
        | .error e => ⟨.error e, prb⟩
        | .ok (_, prb2) => ⟨.ok bestRMS, prb2⟩
      else ⟨.ok bestRMS, prb⟩

/-- The loop of lines 205-209: `ssr += (*wts)[i] * (*ppt - *rpt).lengthSq()` for
`i < npt`; `n` iterations remain. The weight vector class is not in the file; its
`operator[]` is taken to check the index (an index past the end is an
`Invariant` failure). -/
def ssrLoop (wts : List K) (refPoints prbPoints : List (Point3D K)) :
    Nat → Nat → K → Except Exn K
  | 0, _, ssr => .ok ssr
  | n + 1, i, ssr =>
    match refPoints[i]?, prbPoints[i]?, wts[i]? with
    | some rpt, some ppt, some w =>
      ssrLoop wts refPoints prbPoints n (i + 1) (ssr + w * (ppt.sub rpt).lengthSq)
    | _, _, _ => .error .Invariant

/-- The body of the loop over the candidates in `CalcRMS` (lines 191-212): the RMS
of one candidate. -/
def rmsOfMatch (env : Env G T K) (prbMol refMol : ROMol G K) (prbCid refCid : Int)
    (wts : List K) (matche : MatchVectType) : Except Exn K :=
  match prbMol.getConformer prbCid with
  | .error e => .error e
  | .ok prbCnf =>
    match refMol.getConformer refCid with
    | .error e => .error e
    | .ok refCnf =>
      match collectPoints prbCnf refCnf matche with
      | .error e => .error e
      | .ok (refPoints, prbPoints) =>
        let npt := refPoints.length
        if npt ≠ prbPoints.length then .error .Invariant
        else
          match ssrLoop wts refPoints prbPoints npt 0 0 with
          | .error e => .error e
          | .ok ssr => .ok (env.sqrt (ssr / (prbPoints.length : K)))

/-- The function `CalcRMS` (lines 152-224). The warning written to `std::cerr` is
not part of the outcome; the check of line 165 is the case of an empty vector
after the lookup. The probe is passed by non-const reference. -/
def CalcRMS (env : Env G T K) (prbMol refMol : ROMol G K) (prbCid refCid : Int)
    (map : List MatchVectType) (maxMatches : Int) (weights : Option (List K)) :
    Outcome G K K :=
  let found : List MatchVectType :=
    if map.isEmpty then env.SubstructMatch refMol prbMol false true false false maxMatches
    else map
  match found with
  | [] => ⟨.error .MolAlignException, prbMol⟩
  | m0 :: rest =>
    let msize := m0.length
    let wtsE : Except Exn (List K) :=
      match weights with
      | some w => if msize = w.length then .ok w else .error .Invariant
      | none => .ok (List.replicate msize 1)
    match wtsE with
    | .error e => ⟨.error e, prbMol⟩
    | .ok wts =>
      match bestLoop
          (fun prb matche =>
            match rmsOfMatch env prb refMol prbCid refCid wts matche with
            | .error e => .error e
            | .ok rms => .ok (rms, prb))
          (m0 :: rest).length 0 (m0 :: rest) 1e300 prbMol with
      | (.error e, prb) => ⟨.error e, prb⟩
      | (.ok (bestRMS, _), prb) => ⟨.ok bestRMS, prb⟩

/-! ## CalcRMS with the arithmetic of `double` as a parameter -/

/-- The operations on `double` that the scoring of `CalcRMS` uses: `+`, `-`, `*`,
`/`, the conversion of a size to `double` and the value of the literal `1e300`
(the `double` nearest to 10^300). They are parameters, so that what
is proved of `CalcRMSWith` holds for the rounding and overflowing operations of
the machine as for the exact ones. The values of `double` that are numbers are
elements of `K` with its order (an infinity is an element above every finite
value); NaN is not represented. -/
structure DoubleOps (K : Type) where
  add : K → K → K
  sub : K → K → K
  mul : K → K → K
  div : K → K → K
  ofNat : Nat → K
  lit1e300 : K

/-- The exact operations of the field. -/
def exactOps : DoubleOps K :=
  ⟨fun a b => a + b, fun a b => a - b, fun a b => a * b, fun a b => a / b, fun n => (n : K),
    1e300⟩

/-- Modelled from the spec: `Point3D::operator-` with the operations `ops`. -/
def DoubleOps.pointSub (ops : DoubleOps K) (p q : Point3D K) : Point3D K :=
  ⟨ops.sub p.x q.x, ops.sub p.y q.y, ops.sub p.z q.z⟩

/-- Modelled from the spec: `Point3D::lengthSq`, `x*x + y*y + z*z`, with the
operations `ops`. -/
def DoubleOps.lengthSq (ops : DoubleOps K) (p : Point3D K) : K :=
  ops.add (ops.add (ops.mul p.x p.x) (ops.mul p.y p.y)) (ops.mul p.z p.z)

/-- The loop of lines 205-209 with the operations `ops`:
`ssr += (*wts)[i] * (*ppt - *rpt).lengthSq()` for `i < npt`. -/
def ssrLoopWith (ops : DoubleOps K) (wts : List K) (refPoints prbPoints : List (Point3D K)) :
    Nat → Nat → K → Except Exn K
  | 0, _, ssr => .ok ssr
  | n + 1, i, ssr =>
    match refPoints[i]?, prbPoints[i]?, wts[i]? with
    | some rpt, some ppt, some w =>
      ssrLoopWith ops wts refPoints prbPoints n (i + 1)
        (ops.add ssr (ops.mul w (ops.lengthSq (ops.pointSub ppt rpt))))
    | _, _, _ => .error .Invariant

/-- The body of the loop over the candidates in `CalcRMS` (lines 191-212) with the
operations `ops`. -/
def rmsOfMatchWith (ops : DoubleOps K) (env : Env G T K) (prbMol refMol : ROMol G K)
    (prbCid refCid : Int) (wts : List K) (matche : MatchVectType) : Except Exn K :=
  match prbMol.getConformer prbCid with
  | .error e => .error e
  | .ok prbCnf =>
    match refMol.getConformer refCid with
    | .error e => .error e
    | .ok refCnf =>
      match collectPoints prbCnf refCnf matche with
      | .error e => .error e
      | .ok (refPoints, prbPoints) =>
        let npt := refPoints.length
        if npt ≠ prbPoints.length then .error .Invariant
        else
          match ssrLoopWith ops wts refPoints prbPoints npt 0 0 with
          | .error e => .error e
          | .ok ssr => .ok (env.sqrt (ops.div ssr (ops.ofNat prbPoints.length)))

/-- The function `CalcRMS` (lines 152-224) with the operations `ops`; `CalcRMS`
above is `CalcRMSWith exactOps`. -/
def CalcRMSWith (ops : DoubleOps K) (env : Env G T K) (prbMol refMol : ROMol G K)
    (prbCid refCid : Int) (map : List MatchVectType) (maxMatches : Int)
    (weights : Option (List K)) : Outcome G K K :=
  let found : List MatchVectType :=
    if map.isEmpty then env.SubstructMatch refMol prbMol false true false false maxMatches
    else map
  match found with
  | [] => ⟨.error .MolAlignException, prbMol⟩
  | m0 :: rest =>
    let msize := m0.length
    let wtsE : Except Exn (List K) :=
      match weights with
      | some w => if msize = w.length then .ok w else .error .Invariant
      | none => .ok (List.replicate msize 1)
    match wtsE with
    | .error e => ⟨.error e, prbMol⟩
    | .ok wts =>
      match bestLoop
          (fun prb matche =>
            match rmsOfMatchWith ops env prb refMol prbCid refCid wts matche with
            | .error e => .error e
            | .ok rms => .ok (rms, prb))
          (m0 :: rest).length 0 (m0 :: rest) ops.lit1e300 prbMol with
      | (.error e, prb) => ⟨.error e, prb⟩
      | (.ok (bestRMS, _), prb) => ⟨.ok bestRMS, prb⟩

/-! ## alignMolConformers -/

/-- A pointer to a position: the place of the conformer in storage order and the
atom index. -/
abbrev Point3DConstPtr := Nat × Nat

/-- Reading a vector of pointers in the current state of the molecule. -/
def readPoints (mol : ROMol G K) (pts : List Point3DConstPtr) : List (Point3D K) :=
  pts.filterMap (fun p => (mol.confs[p.1]?).bind (fun c => c.positions[p.2]?))

/-- The two loops of `_fillAtomPositions`: `pts.push_back(&conf.getAtomPos(ai))`
for the atom indices of the list; `j` is the place of `conf`. -/
def pushAtomPositions (j : Nat) (conf : Conformer K) :
    List Nat → Except Exn (List Point3DConstPtr)
  | [] => .ok []
  | ai :: rest =>
    match conf.getAtomPos ai with
    | .error e => .error e
    | .ok _ =>
      match pushAtomPositions j conf rest with
      | .error e => .error e
      | .ok pts => .ok ((j, ai) :: pts)

/-- The function `_fillAtomPositions` (lines 226-243); `j` is the place of `conf`
in the molecule. -/
def _fillAtomPositions (j : Nat) (conf : Conformer K) (atomIds : Option (List Nat)) :
    Except Exn (List Point3DConstPtr) :=
  let na := conf.getNumAtoms
  match atomIds with
  | none => pushAtomPositions j conf (List.range na)
  | some ids => pushAtomPositions j conf ids

/-- The statements of lines 275-282 and of lines 293-300 for the conformer `conf`
at place `j`: fill `prbPoints`, align, append the RMS to the collector when there
is one, transform the conformer. -/
def alignConformer (env : Env G T K) (atomIds : Option (List Nat)) (weights : Option (List K))
    (reflect : Bool) (maxIters : Nat) (refPoints : List Point3DConstPtr) (j : Nat)
    (conf : Conformer K) (mol : ROMol G K) (RMSlist : Option (List K)) : ConfOutcome G K :=
  match _fillAtomPositions j conf atomIds with
  | .error e => ⟨.error e, mol, RMSlist⟩
  | .ok prbPoints =>
    match AlignPoints env (readPoints mol refPoints) (readPoints mol prbPoints) weights
        reflect maxIters with
    | .error e => ⟨.error e, mol, RMSlist⟩
    | .ok (ssd, tr) =>
      ⟨.ok (), mol.setConf j (transformConformer env conf tr),
        RMSlist.map (fun l => l ++ [env.sqrt (ssd / (prbPoints.length : K))])⟩

/-- The loop of lines 269-283 over the stored conformers: `n` iterations remain,
the iterator stands at place `j`, `i` counts the conformers seen. -/
def storedLoop (env : Env G T K) (atomIds : Option (List Nat)) (weights : Option (List K))
    (reflect : Bool) (maxIters : Nat) (refPoints : List Point3DConstPtr) :
    Nat → Nat → Nat → ROMol G K → Option (List K) → ConfOutcome G K
  | 0, _, _, mol, RMSlist => ⟨.ok (), mol, RMSlist⟩
  | n + 1, j, i, mol, RMSlist =>
    match mol.confs[j]? with
    | none => ⟨.ok (), mol, RMSlist⟩
    | some conf =>
      if i + 1 = 1 then storedLoop env atomIds weights reflect maxIters refPoints n (j + 1) (i + 1)
        mol RMSlist
      else
        match alignConformer env atomIds weights reflect maxIters refPoints j conf mol RMSlist with
        | ⟨.error e, mol1, l1⟩ => ⟨.error e, mol1, l1⟩
        | ⟨.ok _, mol1, l1⟩ =>
          storedLoop env atomIds weights reflect maxIters refPoints n (j + 1) (i + 1) mol1 l1

/-- The loop of lines 287-301 over `confIds`; `i` counts the entries seen. -/
def idsLoop (env : Env G T K) (atomIds : Option (List Nat)) (weights : Option (List K))
    (reflect : Bool) (maxIters : Nat) (refPoints : List Point3DConstPtr) :
    List Nat → Nat → ROMol G K → Option (List K) → ConfOutcome G K
  | [], _, mol, RMSlist => ⟨.ok (), mol, RMSlist⟩
  | cai :: rest, i, mol, RMSlist =>
    if i + 1 = 1 then idsLoop env atomIds weights reflect maxIters refPoints rest (i + 1)
      mol RMSlist
    else
      match mol.getConformerRef (toInt cai) with
      | .error e => ⟨.error e, mol, RMSlist⟩
      | .ok (j, conf) =>
        match alignConformer env atomIds weights reflect maxIters refPoints j conf mol RMSlist with
        | ⟨.error e, mol1, l1⟩ => ⟨.error e, mol1, l1⟩
        | ⟨.ok _, mol1, l1⟩ =>
          idsLoop env atomIds weights reflect maxIters refPoints rest (i + 1) mol1 l1

/-- The function `alignMolConformers` (lines 245-303). -/
def alignMolConformers (env : Env G T K) (mol : ROMol G K) (atomIds : Option (List Nat))
    (confIds : Option (List Nat)) (weights : Option (List K)) (reflect : Bool)
    (maxIters : Nat) (RMSlist : Option (List K)) : ConfOutcome G K :=
  if mol.getNumConformers = 0 then ⟨.ok (), mol, RMSlist⟩
  else
    let cid : Int :=
      match confIds with
      | some (front :: _) => toInt front
      | _ => -1
    match mol.getConformerRef cid with
    | .error e => ⟨.error e, mol, RMSlist⟩
    | .ok (r, refCnf) =>
      match _fillAtomPositions r refCnf atomIds with
      | .error e => ⟨.error e, mol, RMSlist⟩
      | .ok refPoints =>
        match confIds with
        | none =>
          storedLoop env atomIds weights reflect maxIters refPoints mol.getNumConformers 0 0
            mol RMSlist
        | some ids => idsLoop env atomIds weights reflect maxIters refPoints ids 0 mol RMSlist

/-! ## Reading the specification -/

/-- The origin; it stands for a coordinate that an index out of range would name. -/
def Point3D.origin : Point3D K := ⟨0, 0, 0⟩

/-- RmsdEvaluator as the specification words it: for the pairs of a
correspondence, the probe coordinates `p`, the reference coordinates `q` and the
weights `w`, the sum over the pairs `i` of `w i * |p i - q i|^2`, divided by the
number of pairs, then its square root. -/
def rmsdEvaluator (sqrt : K → K) (p q : List (Point3D K)) (w : List K) (m : MatchVectType) : K :=
  sqrt ((List.zipWith
      (fun (wi : K) (pr : Nat × Nat) =>
        wi * ((p.getD pr.1 Point3D.origin).sub (q.getD pr.2 Point3D.origin)).lengthSq)
      w m).sum / (m.length : K))

/-- RmsdEvaluator with the operations `ops` of `double`: the sum over the pairs, in
the order of the pair list and starting from 0, of `w_i * |p_i - q_i|^2`, divided
by the number of pairs, then its square root. -/
def rmsdEvaluatorWith (ops : DoubleOps K) (sqrt : K → K) (p q : List (Point3D K))
    (w : List K) (m : MatchVectType) : K :=
  sqrt (ops.div
    ((w.zip m).foldl
      (fun (acc : K) (x : K × (Nat × Nat)) =>
        ops.add acc (ops.mul x.1
          (ops.lengthSq (ops.pointSub (p.getD x.2.1 Point3D.origin)
            (q.getD x.2.2 Point3D.origin)))))
      0)
    (ops.ofNat m.length))

/-- The coordinates the fit is restricted to: all atoms of the conformer when
`atomIds` is absent, else the atoms it lists, each of which must exist. -/
def selectedPoints (conf : Conformer K) (atomIds : Option (List Nat)) :
    Except Exn (List (Point3D K)) :=
  match atomIds with
  | none => .ok conf.positions
  | some ids =>
    if ∀ a ∈ ids, a < conf.positions.length then
      .ok (ids.map (fun a => conf.positions.getD a Point3D.origin))
    else .error .Invariant

/-- MultiConformerAligner, one conformation, as the specification words it: run
the aligner on the selected atoms of the conformation `conf` (stored at place `j`)
against the reference points, replace the conformation by its transform, and
append the RMS, the square root of the residual over the number of fitted atoms,
when there is a collector. -/
def alignOnto (env : Env G T K) (atomIds : Option (List Nat)) (weights : Option (List K))
    (reflect : Bool) (maxIters : Nat) (refPts : List (Point3D K)) (j : Nat)
    (conf : Conformer K) (mol : ROMol G K) (RMSlist : Option (List K)) : ConfOutcome G K :=
  match selectedPoints conf atomIds with
  | .error e => ⟨.error e, mol, RMSlist⟩
  | .ok prbPts =>
    match AlignPoints env refPts prbPts weights reflect maxIters with
    | .error e => ⟨.error e, mol, RMSlist⟩
    | .ok (ssr, tr) =>
      ⟨.ok (), mol.setConf j (transformConformer env conf tr),
        RMSlist.map (fun l => l ++ [env.sqrt (ssr / (prbPts.length : K))])⟩

/-- MultiConformerAligner over the entries of `confIds` that follow the first:
each entry in the given order, against the fixed reference points. -/
def alignEntries (env : Env G T K) (atomIds : Option (List Nat)) (weights : Option (List K))
    (reflect : Bool) (maxIters : Nat) (refPts : List (Point3D K)) :
    List Nat → ROMol G K → Option (List K) → ConfOutcome G K
  | [], mol, RMSlist => ⟨.ok (), mol, RMSlist⟩
  | c :: rest, mol, RMSlist =>
    match mol.getConformerRef (toInt c) with
    | .error e => ⟨.error e, mol, RMSlist⟩
    | .ok (j, conf) =>
      match alignOnto env atomIds weights reflect maxIters refPts j conf mol RMSlist with
      | ⟨.error e, mol1, l1⟩ => ⟨.error e, mol1, l1⟩
      | ⟨.ok _, mol1, l1⟩ =>
        alignEntries env atomIds weights reflect maxIters refPts rest mol1 l1

/-- The reference points as they stand: the selected atoms of the conformation
stored at place `r` of the molecule in its current state. -/
def referencePoints (mol : ROMol G K) (r : Nat) (atomIds : Option (List Nat)) :
    Except Exn (List (Point3D K)) :=
  match mol.confs[r]? with
  | some c => selectedPoints c atomIds
  | none => .error .ConformerException

/-- MultiConformerAligner over the entries of `confIds` that follow the first, for
any list: each entry in the given order, against the coordinates that the
reference (the conformation at place `r`) has when the entry is reached. -/
def alignEntriesLive (env : Env G T K) (atomIds : Option (List Nat))
    (weights : Option (List K)) (reflect : Bool) (maxIters : Nat) (r : Nat) :
    List Nat → ROMol G K → Option (List K) → ConfOutcome G K
  | [], mol, RMSlist => ⟨.ok (), mol, RMSlist⟩
  | c :: rest, mol, RMSlist =>
    match mol.getConformerRef (toInt c) with
    | .error e => ⟨.error e, mol, RMSlist⟩
    | .ok (j, conf) =>
      match referencePoints mol r atomIds with
      | .error e => ⟨.error e, mol, RMSlist⟩
      | .ok refPts =>
        match alignOnto env atomIds weights reflect maxIters refPts j conf mol RMSlist with
        | ⟨.error e, mol1, l1⟩ => ⟨.error e, mol1, l1⟩
        | ⟨.ok _, mol1, l1⟩ =>
          alignEntriesLive env atomIds weights reflect maxIters r rest mol1 l1

/-- MultiConformerAligner over the stored conformations that follow the first:
each one in storage order (`j` is the place of the head of the list), against
the fixed reference points. -/
def alignStored (env : Env G T K) (atomIds : Option (List Nat)) (weights : Option (List K))
    (reflect : Bool) (maxIters : Nat) (refPts : List (Point3D K)) :
    List (Conformer K) → Nat → ROMol G K → Option (List K) → ConfOutcome G K
  | [], _, mol, RMSlist => ⟨.ok (), mol, RMSlist⟩
  | conf :: rest, j, mol, RMSlist =>
    match alignOnto env atomIds weights reflect maxIters refPts j conf mol RMSlist with
    | ⟨.error e, mol1, l1⟩ => ⟨.error e, mol1, l1⟩
    | ⟨.ok _, mol1, l1⟩ =>
      alignStored env atomIds weights reflect maxIters refPts rest (j + 1) mol1 l1

/-- The candidates handed to `body` one after the other, each on the state the
previous one left: the RMS values in enumeration order and the final state. -/
def runBodies {S : Type} (body : S → MatchVectType → Except Exn (K × S)) :
    List MatchVectType → S → Except Exn (List K × S)
  | [], s => .ok ([], s)
  | m :: rest, s =>
    match body s m with
    | .error e => .error e
    | .ok (r, s1) =>
      match runBodies body rest s1 with
      | .error e => .error e
      | .ok (rs, s2) => .ok (r :: rs, s2)

/-- The calls `alignMol(probeMol, refMol, probeId, refId, &m)` for the
correspondences of a list, one after the other on the same probe. -/
def alignSeq (env : Env G T K) (refMol : ROMol G K) (probeId refId : Int)
    (calls : List MatchVectType) (probeMol : ROMol G K) : Except Exn (List K × ROMol G K) :=
  runBodies
    (fun prb matche => alignMol env prb refMol probeId refId (some matche)
      env.defWeights env.defReflect env.defMaxIterations)
    calls probeMol

/-- Running minimum with its candidate: a later value replaces the current one
only when it is strictly smaller. -/
def selectBest {M : Type} : K × M → List (K × M) → K × M
  | acc, [] => acc
  | acc, p :: rest => if p.1 < acc.1 then selectBest p rest else selectBest acc rest

/-- The conditions under which `alignMol` with an explicit atom map returns: the
probe conformer and the reference conformer exist, every pair of the map names an
atom of each, and a weight vector has as many entries as the map. -/
def Alignable (prb ref : ROMol G K) (pc rc : Int) (m : MatchVectType)
    (w : Option (List K)) : Prop :=
  ∃ i c rcf, prb.getConformerRef pc = .ok (i, c) ∧ ref.getConformer rc = .ok rcf ∧
    (∀ pr ∈ m, pr.1 < c.positions.length ∧ pr.2 < rcf.positions.length) ∧
    (∀ wl, w = some wl → wl.length = m.length)

/-- The environment with the three entry points of the substructure matcher
replaced. -/
def Env.withMatcher (env : Env G T K)
    (f : ROMol G K → ROMol G K → Bool → Bool → Bool → Bool → Int → List MatchVectType)
    (g : ROMol G K → ROMol G K → Bool → Bool → Bool → Option MatchVectType)
    (h : ROMol G K → ROMol G K → List ((Nat × Nat) × (Nat × Nat))) : Env G T K :=
  ⟨env.sqrt, env.alignSolve, env.TransformPoint, f, g, env.qry, h, env.setFormalCharge,
    env.getBondBetweenAtoms, env.replaceBond, env.defWeights, env.defReflect,
    env.defMaxIterations⟩

/-! ## A concrete environment -/

/-- Componentwise sum of two points. -/
def Point3D.add (p q : Point3D K) : Point3D K :=
  ⟨p.x + q.x, p.y + q.y, p.z + q.z⟩

/-- A solver for the environment below: the translation that carries the first
probe point onto the first reference point, with the weighted sum of squared
distances that remain after it. For point sets of one point this is the aligner
of the specification (translation aligning the single point exactly). -/
def translationSolve (refPoints prbPoints : List (Point3D K)) (weights : Option (List K))
    (_reflect : Bool) (_maxIterations : Nat) : K × Point3D K :=
  let t : Point3D K :=
    match refPoints, prbPoints with
    | r :: _, p :: _ => r.sub p
    | _, _ => Point3D.origin
  let w := weights.getD (List.replicate refPoints.length 1)
  ((List.zipWith3 (fun wi r p => wi * ((Point3D.add p t).sub r).lengthSq) w refPoints
      prbPoints).sum, t)

/-- An environment without graph: transforms are translations, the matcher finds
nothing. -/
def translationEnv (sqrt : K → K) : Env Unit (Point3D K) K :=
  ⟨sqrt, translationSolve, fun t p => Point3D.add p t, fun _ _ _ _ _ _ _ => [],
    fun _ _ _ _ _ => none, none, fun _ _ => [], fun g _ _ => g, fun _ _ _ => none,
    fun g _ => g, none, false, 50⟩

/-! ## Concrete molecules -/

/-- The environment used on concrete inputs: rational coordinates, `Rat.sqrt`
(exact on squares of rationals). -/
def ratEnv : Env Unit (Point3D ℚ) ℚ := translationEnv Rat.sqrt

/-- A probe with one conformer (id 0) of one atom at (1,0,0). -/
def oneAtomProbe : ROMol Unit ℚ := ⟨(), [⟨0, [⟨1, 0, 0⟩]⟩]⟩

/-- A reference with one conformer (id 0) of two atoms at (0,0,0) and (3,0,0). -/
def twoAtomRef : ROMol Unit ℚ := ⟨(), [⟨0, [⟨0, 0, 0⟩, ⟨3, 0, 0⟩]⟩]⟩

/-- A probe with one conformer (id 0) of two atoms at (1,0,0) and (3,0,0). -/
def twoAtomProbe : ROMol Unit ℚ := ⟨(), [⟨0, [⟨1, 0, 0⟩, ⟨3, 0, 0⟩]⟩]⟩

/-- A reference with one conformer (id 0) of three atoms at (0,0,0), (2,0,0) and
(4,2,0). -/
def threeAtomRef : ROMol Unit ℚ := ⟨(), [⟨0, [⟨0, 0, 0⟩, ⟨2, 0, 0⟩, ⟨4, 2, 0⟩]⟩]⟩

/-- Two candidates for `oneAtomProbe` on `twoAtomRef`. -/
def twoCandidates : List MatchVectType := [[(0, 0)], [(0, 1)]]

/-- Three candidates for `twoAtomProbe` on `threeAtomRef`; their RMS values under
`ratEnv` are 2, 0 and 0. -/
def threeCandidates : List MatchVectType :=
  [[(0, 0), (1, 2)], [(0, 0), (1, 1)], [(1, 1), (0, 0)]]

/-- A reference with one conformer (id 0) of one atom at the origin. -/
def originRef : ROMol Unit ℚ := ⟨(), [⟨0, [⟨0, 0, 0⟩]⟩]⟩

/-- A probe with one conformer (id 0) of one atom at (1e301,0,0). -/
def farProbe : ROMol Unit ℚ := ⟨(), [⟨0, [⟨1e301, 0, 0⟩]⟩]⟩

/-- A probe with one conformer (id 0) of two atoms at (0,0,0) and (2,0,0). -/
def spreadProbe : ROMol Unit ℚ := ⟨(), [⟨0, [⟨0, 0, 0⟩, ⟨2, 0, 0⟩]⟩]⟩

/-- A reference with one conformer (id 0) of two atoms, both at the origin. -/
def pointRef : ROMol Unit ℚ := ⟨(), [⟨0, [⟨0, 0, 0⟩, ⟨0, 0, 0⟩]⟩]⟩

/-- A molecule with two conformers of one atom: id 0 at the origin and id 1 at
(1,0,0). -/
def twoConformers : ROMol Unit ℚ := ⟨(), [⟨0, [⟨0, 0, 0⟩]⟩, ⟨1, [⟨1, 0, 0⟩]⟩]⟩

/-- Two candidates for `twoAtomProbe` on `threeAtomRef`; their RMS values under
`ratEnv` are 2 and 0, so the last candidate is the best one. -/
def lastWins : List MatchVectType := [[(0, 0), (1, 2)], [(0, 0), (1, 1)]]

/-- The largest finite `double`. -/
def dblMax : ℚ := (2 - 1 / 2 ^ 52) * 2 ^ 1023

/-- A rational above every finite `double`; it stands for the infinity. -/
def posInf : ℚ := 2 ^ 1024

/-- Overflow: a result beyond the largest finite `double` becomes an infinity. -/
def overflow (x : ℚ) : ℚ :=
  if dblMax < x then posInf else if x < -dblMax then -posInf else x

/-- Operations that overflow as those of `double` do (rounding left aside). -/
def overflowOps : DoubleOps ℚ :=
  ⟨fun a b => overflow (a + b), fun a b => overflow (a - b), fun a b => overflow (a * b),
    fun a b => overflow (a / b), fun n => (n : ℚ), 1e300⟩

/-- Square root for `overflowOps`: the root of the infinity is the infinity. -/
def overflowSqrt (x : ℚ) : ℚ := if dblMax < x then posInf else Rat.sqrt x

/-- The environment that goes with `overflowOps`. -/
def overflowEnv : Env Unit (Point3D ℚ) ℚ := translationEnv overflowSqrt

/-- A probe with one conformer (id 0) of one atom at (1e200,0,0). -/
def distantProbe : ROMol Unit ℚ := ⟨(), [⟨0, [⟨1e200, 0, 0⟩]⟩]⟩

/-! ## Lemmas: selection of the minimum -/

theorem selectBest_spec {M : Type} (pairs : List (K × M)) (acc : K × M) :
    (selectBest acc pairs = acc ∧ ∀ p ∈ pairs, acc.1 ≤ p.1) ∨
    (∃ j, pairs[j]? = some (selectBest acc pairs) ∧ (selectBest acc pairs).1 < acc.1 ∧
      (∀ (k : Nat) (q : K × M), k < j → pairs[k]? = some q → (selectBest acc pairs).1 < q.1) ∧
      (∀ q ∈ pairs, (selectBest acc pairs).1 ≤ q.1)) := by
  induction pairs generalizing acc with
  | nil => left; simp [selectBest]
  | cons p rest ih =>
    by_cases h : p.1 < acc.1
    · have hs : selectBest acc (p :: rest) = selectBest p rest := by simp [selectBest, h]
      rw [hs]
      right
      rcases ih p with ⟨h1, h2⟩ | ⟨j, h1, h2, h3, h4⟩
      · refine ⟨0, by simp [h1], by rw [h1]; exact h, ?_, ?_⟩
        · intro k q hk; omega
        · intro q hq
          rw [h1]
          rcases List.mem_cons.mp hq with rfl | hq
          · exact le_refl _
          · exact h2 q hq
      · refine ⟨j + 1, by simpa using h1, lt_trans h2 h, ?_, ?_⟩
        · intro k q hk hq
          cases k with
          | zero =>
            simp at hq
            rw [← hq]; exact h2
          | succ k => exact h3 k q (by omega) (by simpa using hq)
        · intro q hq
          rcases List.mem_cons.mp hq with rfl | hq
          · exact le_of_lt h2
          · exact h4 q hq
    · have hs : selectBest acc (p :: rest) = selectBest acc rest := by simp [selectBest, h]
      rw [hs]
      rcases ih acc with ⟨h1, h2⟩ | ⟨j, h1, h2, h3, h4⟩
      · left
        refine ⟨h1, ?_⟩
        intro q hq
        rcases List.mem_cons.mp hq with rfl | hq
        · exact not_lt.mp h
        · exact h2 q hq
      · right
        refine ⟨j + 1, by simpa using h1, h2, ?_, ?_⟩
        · intro k q hk hq
          cases k with
          | zero =>
            simp at hq
            rw [← hq]; exact lt_of_lt_of_le h2 (not_lt.mp h)
          | succ k => exact h3 k q (by omega) (by simpa using hq)
        · intro q hq
          rcases List.mem_cons.mp hq with rfl | hq
          · exact le_trans (le_of_lt h2) (not_lt.mp h)
          · exact h4 q hq

theorem runBodies_length {S : Type} (body : S → MatchVectType → Except Exn (K × S))
    (ms : List MatchVectType) (s : S) (vals : List K) (s1 : S)
    (h : runBodies body ms s = .ok (vals, s1)) : vals.length = ms.length := by
  induction ms generalizing s vals s1 with
  | nil => simp [runBodies] at h; simp [h.1.symm]
  | cons m rest ih =>
    simp only [runBodies] at h
    split at h
    · simp at h
    · rename_i r s2 _
      split at h
      · simp at h
      · rename_i rs s3 h3
        simp at h
        rw [← h.1]
        simp [ih s2 rs s3 h3]

/-- The loop over the candidates computes the running minimum of the values the
bodies return and leaves the winning candidate in element 0 of the vector. -/
theorem bestLoop_ok {S : Type} (body : S → MatchVectType → Except Exn (K × S))
    (n i : Nat) (ms : List MatchVectType) (best : K) (s : S) (vals : List K) (s1 : S)
    (hn : i + n = ms.length) (hpos : ms ≠ [])
    (h : runBodies body (ms.drop i) s = .ok (vals, s1)) :
    bestLoop body n i ms best s =
      (.ok ((selectBest (best, ms.headD []) (vals.zip (ms.drop i))).1,
            ms.set 0 (selectBest (best, ms.headD []) (vals.zip (ms.drop i))).2), s1) := by
  induction n generalizing i ms best s vals with
  | zero =>
    have hd : ms.drop i = [] := by
      apply List.drop_eq_nil_of_le; omega
    rw [hd] at h
    simp [runBodies] at h
    obtain ⟨rfl, rfl⟩ := h
    cases ms with
    | nil => exact absurd rfl hpos
    | cons a l => simp [bestLoop, selectBest, hd]
  | succ n ih =>
    have hi : i < ms.length := by omega
    have hd : ms.drop i = ms[i] :: ms.drop (i + 1) := by
      simp
    rw [hd] at h ⊢
    simp only [runBodies] at h
    split at h
    · simp at h
    · rename_i r s2 hb
      split at h
      · simp at h
      · rename_i rs s3 h3
        simp at h
        obtain ⟨rfl, rfl⟩ := h
        have hg : ms[i]? = some ms[i] := by simp [hi]
        simp only [bestLoop, hg, hb]
        have hne : ms.set 0 ms[i] ≠ [] := by
          cases ms with
          | nil => exact absurd rfl hpos
          | cons a l => simp
        have hdrop : (ms.set 0 ms[i]).drop (i + 1) = ms.drop (i + 1) := by
          cases ms with
          | nil => exact absurd rfl hpos
          | cons a l => simp
        have hhead : (ms.set 0 ms[i]).headD [] = ms[i] := by
          cases ms with
          | nil => exact absurd rfl hpos
          | cons a l => simp
        by_cases hlt : r < best
        · have hsel : selectBest (best, ms.headD []) ((r :: rs).zip (ms[i] :: ms.drop (i + 1)))
              = selectBest (r, ms[i]) (rs.zip (ms.drop (i + 1))) := by
            rw [List.zip_cons_cons]
            simp only [selectBest]
            rw [if_pos hlt]
          simp only [hlt, if_true]
          rw [ih (i + 1) (ms.set 0 ms[i]) r s2 rs (by simp; omega) hne (by rw [hdrop]; exact h3),
            hdrop, hhead, hsel, List.set_set]
        · have hsel : selectBest (best, ms.headD []) ((r :: rs).zip (ms[i] :: ms.drop (i + 1)))
              = selectBest (best, ms.headD []) (rs.zip (ms.drop (i + 1))) := by
            rw [List.zip_cons_cons]
            simp only [selectBest]
            rw [if_neg hlt]
          simp only [hlt, if_false]
          rw [ih (i + 1) ms best s2 rs (by omega) hpos h3, hsel]

/-! ## Lemmas: the conformer store -/

theorem findConf_ok (cid : Nat) (confs : List (Conformer K)) (i j : Nat) (c : Conformer K)
    (h : findConf cid i confs = .ok (j, c)) :
    i ≤ j ∧ confs[j - i]? = some c ∧ c.id = cid := by
  induction confs generalizing i with
  | nil => simp [findConf] at h
  | cons a rest ih =>
    simp only [findConf] at h
    split at h
    · rename_i ha
      simp at h
      obtain ⟨rfl, rfl⟩ := h
      simp [ha]
    · obtain ⟨h1, h2, h3⟩ := ih (i + 1) h
      refine ⟨by omega, ?_, h3⟩
      have : j - i = (j - (i + 1)) + 1 := by omega
      rw [this]
      simpa using h2

theorem findConf_error (cid : Nat) (confs : List (Conformer K)) (i : Nat) (e : Exn)
    (h : findConf cid i confs = .error e) : e = .ConformerException := by
  induction confs generalizing i with
  | nil => simp [findConf] at h; exact h.symm
  | cons a rest ih =>
    simp only [findConf] at h
    split at h
    · simp at h
    · exact ih (i + 1) h

theorem findConf_set (cid : Nat) (confs : List (Conformer K)) (i k : Nat)
    (old c1 : Conformer K) (hk : confs[k]? = some old) (hid : c1.id = old.id) :
    findConf cid i (confs.set k c1) =
      match findConf cid i confs with
      | .error e => .error e
      | .ok (j, c) => .ok (j, if j = i + k then c1 else c) := by
  induction confs generalizing i k with
  | nil => simp at hk
  | cons a rest ih =>
    cases k with
    | zero =>
      simp at hk
      subst hk
      simp only [List.set_cons_zero, findConf, hid]
      by_cases ha : a.id = cid
      · simp [ha]
      · simp only [ha, if_false]
        cases hf : findConf cid (i + 1) rest with
        | error e => rfl
        | ok p =>
          obtain ⟨j, c⟩ := p
          have := (findConf_ok cid rest (i + 1) j c hf).1
          have hne : ¬ (j = i) := by omega
          simp [hne]
    | succ k =>
      simp at hk
      simp only [List.set_cons_succ, findConf]
      by_cases ha : a.id = cid
      · simp [ha]
      · simp only [ha, if_false]
        rw [ih (i + 1) k hk]
        cases hf : findConf cid (i + 1) rest with
        | error e => rfl
        | ok p =>
          obtain ⟨j, c⟩ := p
          have h1 : (j = i + 1 + k) = (j = i + (k + 1)) := by
            apply propext; constructor <;> intro h <;> omega
          simp [h1]

theorem getConformerRef_ok (mol : ROMol G K) (id : Int) (j : Nat) (c : Conformer K)
    (h : mol.getConformerRef id = .ok (j, c)) : mol.confs[j]? = some c := by
  unfold ROMol.getConformerRef at h
  split at h
  · simp at h
  · rename_i c0 rest hc
    split at h
    · simp at h
      obtain ⟨rfl, rfl⟩ := h
      simp [hc]
    · have := findConf_ok _ _ _ _ _ h
      simpa using this.2.1

theorem getConformerRef_error (mol : ROMol G K) (id : Int) (e : Exn)
    (h : mol.getConformerRef id = .error e) : e = .ConformerException := by
  unfold ROMol.getConformerRef at h
  split at h
  · simp at h; exact h.symm
  · split at h
    · simp at h
    · exact findConf_error _ _ _ _ h

theorem getConformerRef_setConf (mol : ROMol G K) (id : Int) (k : Nat)
    (old c1 : Conformer K) (hk : mol.confs[k]? = some old) (hid : c1.id = old.id) :
    (mol.setConf k c1).getConformerRef id =
      match mol.getConformerRef id with
      | .error e => .error e
      | .ok (j, c) => .ok (j, if j = k then c1 else c) := by
  unfold ROMol.getConformerRef ROMol.setConf
  cases hc : mol.confs with
  | nil => simp [hc] at hk
  | cons c0 rest =>
    simp only
    cases k with
    | zero =>
      simp [hc] at hk
      subst hk
      simp only [List.set_cons_zero]
      by_cases hneg : id < 0
      · simp [hneg]
      · simp only [hneg, if_false]
        have := findConf_set id.toNat (c0 :: rest) 0 0 c0 c1 (by simp) hid
        simp only [List.set_cons_zero, Nat.add_zero] at this
        rw [this]
    | succ k =>
      simp only [List.set_cons_succ]
      by_cases hneg : id < 0
      · simp [hneg]
      · simp only [hneg, if_false]
        have := findConf_set id.toNat (c0 :: rest) 0 (k + 1) old c1 (by rw [← hc]; exact hk) hid
        simp only [List.set_cons_succ, Nat.zero_add] at this
        rw [this]

/-! ## Lemmas: collecting the points of a correspondence -/

theorem collectPoints_error (prbCnf refCnf : Conformer K) (m : MatchVectType) (e : Exn)
    (h : collectPoints prbCnf refCnf m = .error e) :
    e = .Invariant ∧
      ¬ (∀ pr ∈ m, pr.1 < prbCnf.positions.length ∧ pr.2 < refCnf.positions.length) := by
  induction m with
  | nil => simp [collectPoints] at h
  | cons mi rest ih =>
    simp only [collectPoints, Conformer.getAtomPos] at h
    by_cases h1 : mi.1 < prbCnf.positions.length
    · by_cases h2 : mi.2 < refCnf.positions.length
      · simp [h1, h2] at h
        split at h
        · rename_i e1 he
          simp at h
          subst h
          obtain ⟨i1, i2⟩ := ih he
          refine ⟨i1, ?_⟩
          intro hall
          exact i2 (fun pr hpr => hall pr (List.mem_cons_of_mem _ hpr))
        · simp at h
      · refine ⟨?_, fun hall => h2 (hall mi (List.mem_cons_self _ _)).2⟩
        have : refCnf.positions[mi.2]? = none := by simp; omega
        simp [h1, this] at h
        exact h.symm
    · refine ⟨?_, fun hall => h1 (hall mi (List.mem_cons_self _ _)).1⟩
      have : prbCnf.positions[mi.1]? = none := by simp; omega
      simp [this] at h
      exact h.symm

theorem collectPoints_ok (prbCnf refCnf : Conformer K) (m : MatchVectType)
    (rp pp : List (Point3D K)) (h : collectPoints prbCnf refCnf m = .ok (rp, pp)) :
    (∀ pr ∈ m, pr.1 < prbCnf.positions.length ∧ pr.2 < refCnf.positions.length) ∧
    rp = m.map (fun pr => refCnf.positions.getD pr.2 Point3D.origin) ∧
    pp = m.map (fun pr => prbCnf.positions.getD pr.1 Point3D.origin) := by
  induction m generalizing rp pp with
  | nil =>
    simp [collectPoints] at h
    obtain ⟨rfl, rfl⟩ := h
    simp
  | cons mi rest ih =>
    simp only [collectPoints, Conformer.getAtomPos] at h
    cases h1 : prbCnf.positions[mi.1]? with
    | none => simp [h1] at h
    | some a =>
      cases h2 : refCnf.positions[mi.2]? with
      | none => simp [h1, h2] at h
      | some b =>
        simp only [h1, h2] at h
        cases h3 : collectPoints prbCnf refCnf rest with
        | error e => simp [h3] at h
        | ok pq =>
          obtain ⟨rp1, pp1⟩ := pq
          simp [h3] at h
          obtain ⟨rfl, rfl⟩ := h
          obtain ⟨i1, i2, i3⟩ := ih rp1 pp1 h3
          have l1 : mi.1 < prbCnf.positions.length := by
            by_contra hc
            have : prbCnf.positions[mi.1]? = none := by simp; omega
            simp [this] at h1
          have l2 : mi.2 < refCnf.positions.length := by
            by_contra hc
            have : refCnf.positions[mi.2]? = none := by simp; omega
            simp [this] at h2
          refine ⟨?_, ?_, ?_⟩
          · intro pr hpr
            rcases List.mem_cons.mp hpr with rfl | hpr
            · exact ⟨l1, l2⟩
            · exact i1 pr hpr
          · simp [List.getD_eq_getElem?_getD, h2, i2]
          · simp [List.getD_eq_getElem?_getD, h1, i3]

theorem collectPoints_valid (prbCnf refCnf : Conformer K) (m : MatchVectType)
    (hv : ∀ pr ∈ m, pr.1 < prbCnf.positions.length ∧ pr.2 < refCnf.positions.length) :
    collectPoints prbCnf refCnf m =
      .ok (m.map (fun pr => refCnf.positions.getD pr.2 Point3D.origin),
           m.map (fun pr => prbCnf.positions.getD pr.1 Point3D.origin)) := by
  cases h : collectPoints prbCnf refCnf m with
  | error e => exact absurd hv (collectPoints_error _ _ _ _ h).2
  | ok pq =>
    obtain ⟨rp, pp⟩ := pq
    obtain ⟨_, h2, h3⟩ := collectPoints_ok _ _ _ _ _ h
    rw [h2, h3]

/-! ## Lemmas: alignMol -/

theorem getConformer_eq (mol : ROMol G K) (id : Int) (i : Nat) (c : Conformer K)
    (h : mol.getConformerRef id = .ok (i, c)) : mol.getConformer id = .ok c := by
  simp [ROMol.getConformer, h]

theorem getConformer_ok (mol : ROMol G K) (id : Int) (c : Conformer K)
    (h : mol.getConformer id = .ok c) : ∃ i, mol.getConformerRef id = .ok (i, c) := by
  unfold ROMol.getConformer at h
  split at h
  · simp at h
  · rename_i i c1 hc
    simp at h
    subst h
    exact ⟨i, hc⟩

theorem getConformer_error (mol : ROMol G K) (id : Int) (e : Exn)
    (h : mol.getConformer id = .error e) : e = .ConformerException := by
  unfold ROMol.getConformer at h
  split at h
  · rename_i e1 he
    simp at h
    subst h
    exact getConformerRef_error _ _ _ he
  · simp at h

theorem alignMol_ok_inv (env : Env G T K) (prb ref : ROMol G K) (pc rc : Int)
    (m : MatchVectType) (w : Option (List K)) (rf : Bool) (it : Nat) (r : K)
    (prb1 : ROMol G K)
    (h : alignMol env prb ref pc rc (some m) w rf it = .ok (r, prb1)) :
    Alignable prb ref pc rc m w ∧
    ∃ i c tr, prb.getConformerRef pc = .ok (i, c) ∧
      prb1 = prb.setConf i (transformConformer env c tr) := by
  unfold alignMol getAlignmentTransform at h
  cases hp : prb.getConformerRef pc with
  | error e => simp [ROMol.getConformer, hp] at h
  | ok ic =>
    obtain ⟨i, c⟩ := ic
    have hpc := getConformer_eq _ _ _ _ hp
    cases hr : ref.getConformer rc with
    | error e => simp [hpc, hp, hr] at h
    | ok rcf =>
      cases hcp : collectPoints c rcf m with
      | error e => simp [hpc, hp, hr, hcp] at h
      | ok pq =>
        obtain ⟨rp, pp⟩ := pq
        obtain ⟨hv, hrp, hpp⟩ := collectPoints_ok _ _ _ _ _ hcp
        cases hal : AlignPoints env rp pp w rf it with
        | error e => simp [hpc, hp, hr, hcp, hal] at h
        | ok st =>
          obtain ⟨ssr, tr⟩ := st
          simp [hpc, hp, hr, hcp, hal] at h
          refine ⟨⟨i, c, rcf, hp, hr, hv, ?_⟩, i, c, tr, rfl, h.2.symm⟩
          intro wl hwl
          subst hwl
          have hrl : rp.length = m.length := by rw [hrp]; simp
          by_contra hc
          have hc2 : ¬ wl.length = rp.length := by rw [hrl]; exact hc
          unfold AlignPoints at hal
          split at hal
          · simp at hal
          · simp [hc2] at hal

theorem alignMol_ok_of (env : Env G T K) (prb ref : ROMol G K) (pc rc : Int)
    (m : MatchVectType) (w : Option (List K)) (rf : Bool) (it : Nat)
    (h : Alignable prb ref pc rc m w) :
    ∃ r i c tr, prb.getConformerRef pc = .ok (i, c) ∧
      alignMol env prb ref pc rc (some m) w rf it =
        .ok (r, prb.setConf i (transformConformer env c tr)) := by
  obtain ⟨i, c, rcf, hp, hr, hv, hw⟩ := h
  have hcp := collectPoints_valid c rcf m hv
  have hpc := getConformer_eq _ _ _ _ hp
  have hA : (m.map (fun pr => rcf.positions.getD pr.2 Point3D.origin)).length = m.length := by
    simp
  have hB : (m.map (fun pr => c.positions.getD pr.1 Point3D.origin)).length = m.length := by
    simp
  generalize m.map (fun pr => rcf.positions.getD pr.2 Point3D.origin) = A at hcp hA
  generalize m.map (fun pr => c.positions.getD pr.1 Point3D.origin) = B at hcp hB
  have hal : AlignPoints env A B w rf it = .ok (env.alignSolve A B w rf it) := by
    cases w with
    | none => simp [AlignPoints, hA, hB]
    | some wl => simp [AlignPoints, hw wl rfl, hA, hB]
  refine ⟨env.sqrt ((env.alignSolve A B w rf it).1 / (B.length : K)), i, c,
    (env.alignSolve A B w rf it).2, hp, ?_⟩
  unfold alignMol getAlignmentTransform
  simp only [hpc, hp, hr, hcp, hal]

theorem alignMol_error (env : Env G T K) (prb ref : ROMol G K) (pc rc : Int)
    (m : MatchVectType) (w : Option (List K)) (rf : Bool) (it : Nat) (e : Exn)
    (h : alignMol env prb ref pc rc (some m) w rf it = .error e) :
    e ≠ .MolAlignException := by
  unfold alignMol getAlignmentTransform at h
  cases hp : prb.getConformer pc with
  | error e1 =>
    simp [hp] at h
    subst h
    rw [getConformer_error _ _ _ hp]; decide
  | ok c =>
    cases hr : ref.getConformer rc with
    | error e1 =>
      simp [hp, hr] at h
      subst h
      rw [getConformer_error _ _ _ hr]; decide
    | ok rcf =>
      cases hcp : collectPoints c rcf m with
      | error e1 =>
        simp [hp, hr, hcp] at h
        subst h
        rw [(collectPoints_error _ _ _ _ hcp).1]; decide
      | ok pq =>
        obtain ⟨rp, pp⟩ := pq
        cases hal : AlignPoints env rp pp w rf it with
        | error e1 =>
          simp [hp, hr, hcp, hal] at h
          subst h
          unfold AlignPoints at hal
          split at hal
          · simp at hal; rw [← hal]; decide
          · split at hal
            · split at hal
              · simp at hal; rw [← hal]; decide
              · simp at hal
            · simp at hal
        | ok st =>
          obtain ⟨ssr, tr⟩ := st
          simp [hp, hr, hcp, hal] at h
          cases hq : prb.getConformerRef pc with
          | error e1 =>
            simp [hq] at h
            subst h
            rw [getConformerRef_error _ _ _ hq]; decide
          | ok ic => simp [hq] at h

theorem alignable_setConf (env : Env G T K) (prb ref : ROMol G K) (pc rc : Int)
    (m : MatchVectType) (w : Option (List K)) (k : Nat) (old : Conformer K) (tr : T)
    (hk : prb.confs[k]? = some old) (h : Alignable prb ref pc rc m w) :
    Alignable (prb.setConf k (transformConformer env old tr)) ref pc rc m w := by
  obtain ⟨i, c, rcf, hp, hr, hv, hw⟩ := h
  have hs := getConformerRef_setConf prb pc k old (transformConformer env old tr) hk rfl
  rw [hp] at hs
  simp only at hs
  refine ⟨i, _, rcf, hs, hr, ?_, hw⟩
  intro pr hpr
  have hc : prb.confs[i]? = some c := getConformerRef_ok _ _ _ _ hp
  by_cases hik : i = k
  · subst hik
    rw [hk] at hc
    simp at hc
    subst hc
    simpa [transformConformer] using hv pr hpr
  · simpa [hik] using hv pr hpr

/-! ## Lemmas: sequences of alignments -/

theorem runBodies_append {S : Type} (body : S → MatchVectType → Except Exn (K × S))
    (xs ys : List MatchVectType) (s s1 s2 : S) (v1 v2 : List K)
    (h1 : runBodies body xs s = .ok (v1, s1)) (h2 : runBodies body ys s1 = .ok (v2, s2)) :
    runBodies body (xs ++ ys) s = .ok (v1 ++ v2, s2) := by
  induction xs generalizing s v1 with
  | nil =>
    simp [runBodies] at h1
    obtain ⟨rfl, rfl⟩ := h1
    simpa using h2
  | cons x rest ih =>
    simp only [runBodies] at h1
    cases hb : body s x with
    | error e => simp [hb] at h1
    | ok p =>
      obtain ⟨r, s3⟩ := p
      cases hr : runBodies body rest s3 with
      | error e => simp [hb, hr] at h1
      | ok q =>
        obtain ⟨rs, s4⟩ := q
        simp [hb, hr] at h1
        obtain ⟨rfl, rfl⟩ := h1
        simp [runBodies, hb, ih s3 rs hr]

theorem alignSeq_keeps_alignable (env : Env G T K) (ref : ROMol G K) (pc rc : Int)
    (ms : List MatchVectType) (s s1 : ROMol G K) (vals : List K) (m : MatchVectType)
    (h : alignSeq env ref pc rc ms s = .ok (vals, s1))
    (ha : Alignable s ref pc rc m env.defWeights) :
    Alignable s1 ref pc rc m env.defWeights := by
  induction ms generalizing s vals with
  | nil =>
    simp [alignSeq, runBodies] at h
    rw [← h.2]; exact ha
  | cons x rest ih =>
    simp only [alignSeq, runBodies] at h
    cases hb : alignMol env s ref pc rc (some x) env.defWeights env.defReflect
        env.defMaxIterations with
    | error e => simp [hb] at h
    | ok p =>
      obtain ⟨r, s3⟩ := p
      simp only [hb] at h
      cases hr : alignSeq env ref pc rc rest s3 with
      | error e =>
        simp only [alignSeq] at hr
        simp [hr] at h
      | ok q =>
        obtain ⟨rs, s4⟩ := q
        have hr1 := hr
        simp only [alignSeq] at hr
        simp [hr] at h
        obtain ⟨_, rfl⟩ := h
        obtain ⟨_, i, c, tr, hic, rfl⟩ := alignMol_ok_inv _ _ _ _ _ _ _ _ _ _ _ hb
        exact ih _ rs hr1 (alignable_setConf env s ref pc rc m _ i c tr
          (getConformerRef_ok _ _ _ _ hic) ha)

theorem alignSeq_alignable (env : Env G T K) (ref : ROMol G K) (pc rc : Int)
    (ms : List MatchVectType) (s s1 : ROMol G K) (vals : List K)
    (h : alignSeq env ref pc rc ms s = .ok (vals, s1)) :
    ∀ m ∈ ms, Alignable s1 ref pc rc m env.defWeights := by
  induction ms generalizing s vals with
  | nil => intro m hm; simp at hm
  | cons x rest ih =>
    have h0 := h
    simp only [alignSeq, runBodies] at h
    cases hb : alignMol env s ref pc rc (some x) env.defWeights env.defReflect
        env.defMaxIterations with
    | error e => simp [hb] at h
    | ok p =>
      obtain ⟨r, s3⟩ := p
      simp only [hb] at h
      cases hr : alignSeq env ref pc rc rest s3 with
      | error e =>
        simp only [alignSeq] at hr
        simp [hr] at h
      | ok q =>
        obtain ⟨rs, s4⟩ := q
        have hr1 := hr
        simp only [alignSeq] at hr
        simp [hr] at h
        obtain ⟨_, rfl⟩ := h
        intro m hm
        rcases List.mem_cons.mp hm with rfl | hm
        · exact alignSeq_keeps_alignable env ref pc rc _ s s4 _ _ h0
            (alignMol_ok_inv _ _ _ _ _ _ _ _ _ _ _ hb).1
        · exact ih s3 rs hr1 m hm

/-! ## getBestRMS selects the first minimum -/

theorem getBestRMS_cons (env : Env G T K) (probeMol refMol : ROMol G K) (probeId refId : Int)
    (m0 : MatchVectType) (rest : List MatchVectType) (maxMatches : Int) (sym : Bool) :
    getBestRMS env probeMol refMol probeId refId (m0 :: rest) maxMatches sym =
      match bestLoop
          (fun prb matche => alignMol env prb refMol probeId refId (some matche)
            env.defWeights env.defReflect env.defMaxIterations)
          (m0 :: rest).length 0 (m0 :: rest) 1e300 probeMol with
      | (.error e, prb) => ⟨.error e, prb⟩
      | (.ok (bestRMS, ms), prb) =>
        if 0 ≠ ms.length - 1 then
          match alignMol env prb refMol probeId refId (some (ms.headD []))
              env.defWeights env.defReflect env.defMaxIterations with
          | .error e => ⟨.error e, prb⟩
          | .ok (_, prb2) => ⟨.ok bestRMS, prb2⟩
        else ⟨.ok bestRMS, prb⟩ := by
  simp [getBestRMS]

theorem selectBest_first_min {M : Type} (vals : List K) (ms : List M) (b : K) (d : M)
    (hlen : vals.length = ms.length) (hne : ms ≠ []) (hlt : ∀ v ∈ vals, v < b) :
    ∃ j, vals[j]? = some (selectBest (b, d) (vals.zip ms)).1 ∧
      ms[j]? = some (selectBest (b, d) (vals.zip ms)).2 ∧
      (∀ (k : Nat) (u : K), vals[k]? = some u → (selectBest (b, d) (vals.zip ms)).1 ≤ u) ∧
      (∀ (k : Nat) (u : K), k < j → vals[k]? = some u →
        (selectBest (b, d) (vals.zip ms)).1 < u) := by
  rcases selectBest_spec (vals.zip ms) (b, d) with ⟨_, h2⟩ | ⟨j, h1, _, h3, h4⟩
  · exfalso
    cases ms with
    | nil => exact hne rfl
    | cons m rest =>
      cases vals with
      | nil => simp at hlen
      | cons v vs =>
        have := h2 (v, m) (by simp)
        exact absurd (hlt v (by simp)) (not_lt.mpr this)
  · have hz := h1
    rw [List.getElem?_zip_eq_some] at hz
    refine ⟨j, hz.1, hz.2, ?_, ?_⟩
    · intro k u hk
      have hkl : k < ms.length := by
        rw [← hlen]
        by_contra hc
        have : vals[k]? = none := by simp; omega
        rw [this] at hk; simp at hk
      have hq : (vals.zip ms)[k]? = some (u, ms[k]) := by
        rw [List.getElem?_zip_eq_some]
        exact ⟨hk, by simp [hkl]⟩
      exact h4 (u, ms[k]) (List.getElem?_mem hq)
    · intro k u hkj hk
      have hkl : k < ms.length := by
        rw [← hlen]
        by_contra hc
        have : vals[k]? = none := by simp; omega
        rw [this] at hk; simp at hk
      have hq : (vals.zip ms)[k]? = some (u, ms[k]) := by
        rw [List.getElem?_zip_eq_some]
        exact ⟨hk, by simp [hkl]⟩
      exact h3 k (u, ms[k]) hkj hq

/-- C1. For a non-empty candidate list on which every call of `alignMol` in the
loop returns, with RMS values `vals` all below 1e300, `getBestRMS` returns the
minimum of `vals`; the candidate `m` at the first position `j` attaining it is the
correspondence of the last alignment applied to the probe: the probe ends in the
state reached by the calls `calls`, which are the candidates in order, followed
by `m` when there is more than one candidate, and whose last element is `m`. A
later candidate with an equal RMS does not replace it. -/
theorem getBestRMS_selects_first_minimum (env : Env G T K) (probeMol refMol : ROMol G K)
    (probeId refId : Int) (map : List MatchVectType) (maxMatches : Int) (sym : Bool)
    (vals : List K) (prbEnd : ROMol G K)
    (hne : map ≠ [])
    (hrun : alignSeq env refMol probeId refId map probeMol = .ok (vals, prbEnd))
    (hlt : ∀ v ∈ vals, v < 1e300) :
    ∃ (j : Nat) (v : K) (m : MatchVectType),
      vals[j]? = some v ∧ map[j]? = some m ∧
      (∀ (k : Nat) (u : K), vals[k]? = some u → v ≤ u) ∧
      (∀ (k : Nat) (u : K), k < j → vals[k]? = some u → v < u) ∧
      (getBestRMS env probeMol refMol probeId refId map maxMatches sym).result = .ok v ∧
      ∃ (calls : List MatchVectType) (rs : List K),
        (calls = map ∨ calls = map ++ [m]) ∧ calls.getLast? = some m ∧
        alignSeq env refMol probeId refId calls probeMol =
          .ok (rs, (getBestRMS env probeMol refMol probeId refId map maxMatches sym).mol) := by
  have hlen := runBodies_length _ _ _ _ _ hrun
  obtain ⟨j, hj1, hj2, hj3, hj4⟩ :=
    selectBest_first_min vals map 1e300 (map.headD []) hlen hne hlt
  have hloop := bestLoop_ok
    (fun prb matche => alignMol env prb refMol probeId refId (some matche)
      env.defWeights env.defReflect env.defMaxIterations)
    map.length 0 map 1e300 probeMol vals prbEnd (by simp) hne (by simpa [alignSeq] using hrun)
  simp only [List.drop_zero] at hloop
  generalize selectBest ((1e300 : K), map.headD []) (vals.zip map) = sel at hj1 hj2 hj3 hj4 hloop
  refine ⟨j, sel.1, sel.2, hj1, hj2, hj3, hj4, ?_⟩
  cases map with
  | nil => exact absurd rfl hne
  | cons m0 rest =>
    rw [getBestRMS_cons, hloop]
    simp only [List.set_cons_zero, List.length_cons, List.headD_cons]
    by_cases hr : rest = []
    · subst hr
      have hj0 : j = 0 := by
        by_contra hc
        have : ([m0] : List MatchVectType)[j]? = none := by simp; omega
        rw [this] at hj2; simp at hj2
      subst hj0
      simp at hj2
      simp only [List.length_nil]
      refine ⟨rfl, [m0], vals, Or.inl rfl, by simp [hj2], ?_⟩
      simpa using hrun
    · have hlen2 : 0 ≠ rest.length + 1 - 1 := by
        have : rest.length ≠ 0 := by
          intro h0; exact hr (List.length_eq_zero.mp h0)
        omega
      rw [if_pos (by simpa using hlen2)]
      have hmem : sel.2 ∈ m0 :: rest := List.getElem?_mem hj2
      have hal := alignSeq_alignable env refMol probeId refId _ _ _ _ hrun sel.2 hmem
      obtain ⟨r, i, c, tr, _, hfin⟩ :=
        alignMol_ok_of env prbEnd refMol probeId refId sel.2 env.defWeights env.defReflect
          env.defMaxIterations hal
      rw [hfin]
      refine ⟨rfl, (m0 :: rest) ++ [sel.2], vals ++ [r], Or.inr rfl,
        List.getLast?_concat _, ?_⟩
      apply runBodies_append _ _ _ _ _ _ _ _ hrun
      simp [runBodies, hfin]

/-! ## Lemmas: the score of one candidate -/

theorem ssrLoop_map (wts : List K) (m : MatchVectType) (gr gp : Nat × Nat → Point3D K)
    (n i : Nat) (acc : K) (hn : i + n = m.length) :
    ssrLoop wts (m.map gr) (m.map gp) n i acc =
      if n ≤ (wts.drop i).length then
        .ok (acc + (List.zipWith (fun (w : K) (pr : Nat × Nat) => w * ((gp pr).sub (gr pr)).lengthSq)
          (wts.drop i) (m.drop i)).sum)
      else .error .Invariant := by
  induction n generalizing i acc with
  | zero =>
    have hd : m.drop i = [] := by apply List.drop_eq_nil_of_le; omega
    simp [ssrLoop, hd]
  | succ n ih =>
    have hi : i < m.length := by omega
    have hd : m.drop i = m[i] :: m.drop (i + 1) := by simp
    have h1 : (m.map gr)[i]? = some (gr m[i]) := by simp [hi]
    have h2 : (m.map gp)[i]? = some (gp m[i]) := by simp [hi]
    by_cases hw : i < wts.length
    · have hwd : wts.drop i = wts[i] :: wts.drop (i + 1) := by simp
      have h3 : wts[i]? = some wts[i] := by simp [hw]
      simp only [ssrLoop, h1, h2, h3]
      rw [ih (i + 1) _ (by omega), hd, hwd]
      simp only [List.length_cons, List.zipWith_cons_cons, List.sum_cons, Nat.add_le_add_iff_right]
      split
      · simp [add_assoc]
      · rfl
    · have h3 : wts[i]? = none := by simp; omega
      have hl : ¬ (n + 1 ≤ (wts.drop i).length) := by simp; omega
      simp only [ssrLoop, h1, h2, h3, hl, if_false]

theorem rmsOfMatch_valid (env : Env G T K) (prb ref : ROMol G K) (pc rc : Int)
    (wts : List K) (m : MatchVectType) (c rcf : Conformer K)
    (hp : prb.getConformer pc = .ok c) (hr : ref.getConformer rc = .ok rcf)
    (hv : ∀ pr ∈ m, pr.1 < c.positions.length ∧ pr.2 < rcf.positions.length) :
    rmsOfMatch env prb ref pc rc wts m =
      if m.length ≤ wts.length then
        .ok (rmsdEvaluator env.sqrt c.positions rcf.positions wts m)
      else .error .Invariant := by
  unfold rmsOfMatch
  simp only [hp, hr, collectPoints_valid c rcf m hv, List.length_map, ne_eq, not_true_eq_false,
    if_false]
  rw [ssrLoop_map wts m _ _ m.length 0 0 (by simp)]
  simp only [List.drop_zero, zero_add]
  by_cases hl : m.length ≤ wts.length
  · simp only [hl, if_true]
    rfl
  · simp only [hl, if_false]

theorem rmsOfMatch_invalid (env : Env G T K) (prb ref : ROMol G K) (pc rc : Int)
    (wts : List K) (m : MatchVectType) (c rcf : Conformer K)
    (hp : prb.getConformer pc = .ok c) (hr : ref.getConformer rc = .ok rcf)
    (hv : ¬ ∀ pr ∈ m, pr.1 < c.positions.length ∧ pr.2 < rcf.positions.length) :
    rmsOfMatch env prb ref pc rc wts m = .error .Invariant := by
  unfold rmsOfMatch
  cases hcp : collectPoints c rcf m with
  | error e =>
    simp only [hp, hr, hcp]
    rw [(collectPoints_error _ _ _ _ hcp).1]
  | ok pq =>
    obtain ⟨rp, pp⟩ := pq
    exact absurd (collectPoints_ok _ _ _ _ _ hcp).1 hv

theorem rmsOfMatch_error (env : Env G T K) (prb ref : ROMol G K) (pc rc : Int)
    (wts : List K) (m : MatchVectType) (e : Exn)
    (h : rmsOfMatch env prb ref pc rc wts m = .error e) : e ≠ .MolAlignException := by
  cases hp : prb.getConformer pc with
  | error e1 =>
    simp [rmsOfMatch, hp] at h
    subst h
    rw [getConformer_error _ _ _ hp]; decide
  | ok c =>
    cases hr : ref.getConformer rc with
    | error e1 =>
      simp [rmsOfMatch, hp, hr] at h
      subst h
      rw [getConformer_error _ _ _ hr]; decide
    | ok rcf =>
      by_cases hv : ∀ pr ∈ m, pr.1 < c.positions.length ∧ pr.2 < rcf.positions.length
      · rw [rmsOfMatch_valid env prb ref pc rc wts m c rcf hp hr hv] at h
        split at h
        · simp at h
        · simp at h; rw [← h]; decide
      · rw [rmsOfMatch_invalid env prb ref pc rc wts m c rcf hp hr hv] at h
        simp at h; rw [← h]; decide

/-! ## Lemmas: the loop over the candidates -/

theorem bestLoop_state {S : Type} (body : S → MatchVectType → Except Exn (K × S))
    (hbody : ∀ s m r s1, body s m = .ok (r, s1) → s1 = s)
    (n i : Nat) (ms : List MatchVectType) (best : K) (s : S) :
    (bestLoop body n i ms best s).2 = s := by
  induction n generalizing i ms best with
  | zero => simp [bestLoop]
  | succ n ih =>
    simp only [bestLoop]
    cases hg : ms[i]? with
    | none => rfl
    | some matche =>
      simp only
      cases hb : body s matche with
      | error e => rfl
      | ok p =>
        obtain ⟨r, s1⟩ := p
        have := hbody _ _ _ _ hb
        subst this
        simp only
        split
        · exact ih _ _ _
        · exact ih _ _ _

theorem bestLoop_error {S : Type} (body : S → MatchVectType → Except Exn (K × S))
    (P : Exn → Prop) (hbody : ∀ s m e, body s m = .error e → P e)
    (n i : Nat) (ms : List MatchVectType) (best : K) (s s1 : S) (e : Exn)
    (h : bestLoop body n i ms best s = (.error e, s1)) : P e := by
  induction n generalizing i ms best s with
  | zero => simp [bestLoop] at h
  | succ n ih =>
    simp only [bestLoop] at h
    cases hg : ms[i]? with
    | none => simp [hg] at h
    | some matche =>
      simp only [hg] at h
      cases hb : body s matche with
      | error e1 =>
        simp [hb] at h
        rw [← h.1]
        exact hbody _ _ _ hb
      | ok p =>
        obtain ⟨r, s2⟩ := p
        simp only [hb] at h
        split at h
        · exact ih _ _ _ _ h
        · exact ih _ _ _ _ h

/-! ## CalcRMS leaves the molecules alone; the no-correspondence error -/

theorem CalcRMS_cons (env : Env G T K) (prbMol refMol : ROMol G K) (prbCid refCid : Int)
    (m0 : MatchVectType) (rest : List MatchVectType) (maxMatches : Int)
    (weights : Option (List K)) :
    CalcRMS env prbMol refMol prbCid refCid (m0 :: rest) maxMatches weights =
      match (match weights with
        | some w => if m0.length = w.length then Except.ok w else Except.error Exn.Invariant
        | none => Except.ok (List.replicate m0.length 1)) with
      | .error e => ⟨.error e, prbMol⟩
      | .ok wts =>
        match bestLoop
            (fun prb matche =>
              match rmsOfMatch env prb refMol prbCid refCid wts matche with
              | .error e => .error e
              | .ok rms => .ok (rms, prb))
            (m0 :: rest).length 0 (m0 :: rest) 1e300 prbMol with
        | (.error e, prb) => ⟨.error e, prb⟩
        | (.ok (bestRMS, _), prb) => ⟨.ok bestRMS, prb⟩ := by
  simp [CalcRMS]

theorem calcBody_state (env : Env G T K) (refMol : ROMol G K) (prbCid refCid : Int)
    (wts : List K) (s : ROMol G K) (m : MatchVectType) (r : K) (s1 : ROMol G K)
    (h : (match rmsOfMatch env s refMol prbCid refCid wts m with
          | .error e => (Except.error e : Except Exn (K × ROMol G K))
          | .ok rms => .ok (rms, s)) = .ok (r, s1)) : s1 = s := by
  split at h
  · simp at h
  · simp at h; exact h.2.symm

theorem calcBody_error (env : Env G T K) (refMol : ROMol G K) (prbCid refCid : Int)
    (wts : List K) (s : ROMol G K) (m : MatchVectType) (e : Exn)
    (h : (match rmsOfMatch env s refMol prbCid refCid wts m with
          | .error e => (Except.error e : Except Exn (K × ROMol G K))
          | .ok rms => .ok (rms, s)) = .error e) : e ≠ .MolAlignException := by
  split at h
  · rename_i e1 he
    simp at h
    subst h
    exact rmsOfMatch_error _ _ _ _ _ _ _ _ he
  · simp at h

theorem CalcRMS_mol (env : Env G T K) (prbMol refMol : ROMol G K) (prbCid refCid : Int)
    (map : List MatchVectType) (maxMatches : Int) (weights : Option (List K)) :
    (CalcRMS env prbMol refMol prbCid refCid map maxMatches weights).mol = prbMol := by
  unfold CalcRMS
  simp only
  generalize (if map.isEmpty then
      env.SubstructMatch refMol prbMol false true false false maxMatches else map) = found
  cases found with
  | nil => rfl
  | cons m0 rest =>
    simp only
    generalize (match weights with
      | some w => if m0.length = w.length then Except.ok w else Except.error Exn.Invariant
      | none => Except.ok (List.replicate m0.length 1)) = wtsE
    cases wtsE with
    | error e => rfl
    | ok wts =>
      simp only
      have h2 := bestLoop_state
        (fun prb matche =>
          match rmsOfMatch env prb refMol prbCid refCid wts matche with
          | .error e => (Except.error e : Except Exn (K × ROMol G K))
          | .ok rms => .ok (rms, prb))
        (fun s m r s1 h => calcBody_state env refMol prbCid refCid wts s m r s1 h)
        (m0 :: rest).length 0 (m0 :: rest) 1e300 prbMol
      split
      · rename_i e prb hb
        rw [hb] at h2
        exact h2
      · rename_i b x prb hb
        rw [hb] at h2
        exact h2

/-- C3. Whatever the input, and whether `CalcRMS` returns a value or throws, the
probe molecule (passed by non-const reference) is after the call what it was
before it: no conformer and no coordinate has changed. The reference molecule is
passed by const reference and is not part of the outcome. -/
theorem CalcRMS_never_mutates (env : Env G T K) (prbMol refMol : ROMol G K)
    (prbCid refCid : Int) (map : List MatchVectType) (maxMatches : Int)
    (weights : Option (List K)) :
    (CalcRMS env prbMol refMol prbCid refCid map maxMatches weights).mol = prbMol ∧
    (CalcRMS env prbMol refMol prbCid refCid map maxMatches weights).mol.confs.map
        Conformer.positions = prbMol.confs.map Conformer.positions := by
  rw [CalcRMS_mol]
  exact ⟨rfl, rfl⟩

theorem symmetrizeLoop_error (env : Env G T K) (ms : List ((Nat × Nat) × (Nat × Nat)))
    (mol : ROMol G K) (e : Exn) (h : symmetrizeLoop env ms mol = .error e) :
    e = .Invariant := by
  induction ms generalizing mol with
  | nil => simp [symmetrizeLoop] at h
  | cons m rest ih =>
    simp only [symmetrizeLoop] at h
    split at h
    · simp at h; exact h.symm
    · exact ih _ h

theorem symmetrizeTerminalAtoms_error (env : Env G T K) (mol : ROMol G K) (e : Exn)
    (h : symmetrizeTerminalAtoms env mol = .error e) : e = .Invariant := by
  unfold symmetrizeTerminalAtoms at h
  split at h
  · simp at h; exact h.symm
  · exact symmetrizeLoop_error _ _ _ _ h

theorem getBestRMS_nil (env : Env G T K) (probeMol refMol : ROMol G K) (probeId refId : Int)
    (maxMatches : Int) (sym : Bool) :
    getBestRMS env probeMol refMol probeId refId [] maxMatches sym =
      match (if sym then symmetrizeTerminalAtoms env probeMol else .ok probeMol) with
      | .error e => ⟨.error e, probeMol⟩
      | .ok q =>
        match env.SubstructMatch refMol q false true false false maxMatches with
        | [] => ⟨.error .MolAlignException, probeMol⟩
        | m0 :: rest => getBestRMS env probeMol refMol probeId refId (m0 :: rest) maxMatches sym := by
  cases hq : (if sym then symmetrizeTerminalAtoms env probeMol else .ok probeMol) with
  | error e => simp [getBestRMS, hq]
  | ok q =>
    cases hm : env.SubstructMatch refMol q false true false false maxMatches with
    | nil => simp [getBestRMS, hq, hm]
    | cons m0 rest => simp [getBestRMS, hq, hm]

theorem CalcRMS_nil (env : Env G T K) (prbMol refMol : ROMol G K) (prbCid refCid : Int)
    (maxMatches : Int) (weights : Option (List K)) :
    CalcRMS env prbMol refMol prbCid refCid [] maxMatches weights =
      match env.SubstructMatch refMol prbMol false true false false maxMatches with
      | [] => ⟨.error .MolAlignException, prbMol⟩
      | m0 :: rest => CalcRMS env prbMol refMol prbCid refCid (m0 :: rest) maxMatches weights := by
  cases hm : env.SubstructMatch refMol prbMol false true false false maxMatches with
  | nil => simp [CalcRMS, hm]
  | cons m0 rest => simp [CalcRMS, hm]

theorem getBestRMS_cons_error (env : Env G T K) (probeMol refMol : ROMol G K)
    (probeId refId : Int) (m0 : MatchVectType) (rest : List MatchVectType) (maxMatches : Int)
    (sym : Bool) :
    (getBestRMS env probeMol refMol probeId refId (m0 :: rest) maxMatches sym).result ≠
      .error .MolAlignException := by
  rw [getBestRMS_cons]
  split
  · rename_i e prb hb
    have := bestLoop_error _ (fun e => e ≠ Exn.MolAlignException)
      (fun s m e h => alignMol_error env s refMol probeId refId m _ _ _ e h) _ _ _ _ _ _ _ hb
    simp only
    intro hc
    simp at hc
    exact this hc
  · rename_i b ms prb hb
    split
    · split
      · rename_i e he
        have := alignMol_error _ _ _ _ _ _ _ _ _ _ he
        simp only
        intro hc
        simp at hc
        exact this hc
      · simp
    · simp

theorem calcLoop_error (env : Env G T K) (refMol : ROMol G K) (prbCid refCid : Int)
    (wts : List K) (n i : Nat) (ms : List MatchVectType) (best : K) (prbMol : ROMol G K) :
    (match bestLoop
        (fun prb matche =>
          match rmsOfMatch env prb refMol prbCid refCid wts matche with
          | .error e => (Except.error e : Except Exn (K × ROMol G K))
          | .ok rms => .ok (rms, prb))
        n i ms best prbMol with
      | (.error e, prb) => (⟨.error e, prb⟩ : Outcome G K K)
      | (.ok (bestRMS, _), prb) => ⟨.ok bestRMS, prb⟩).result ≠ .error .MolAlignException := by
  split
  · rename_i e prb hb
    have := bestLoop_error _ (fun e => e ≠ Exn.MolAlignException)
      (fun s m e h => calcBody_error env refMol prbCid refCid wts s m e h) _ _ _ _ _ _ _ hb
    simp only
    intro hc
    simp at hc
    exact this hc
  · simp

theorem CalcRMS_cons_error (env : Env G T K) (prbMol refMol : ROMol G K)
    (prbCid refCid : Int) (m0 : MatchVectType) (rest : List MatchVectType) (maxMatches : Int)
    (weights : Option (List K)) :
    (CalcRMS env prbMol refMol prbCid refCid (m0 :: rest) maxMatches weights).result ≠
      .error .MolAlignException := by
  rw [CalcRMS_cons]
  cases weights with
  | none =>
    simp only
    exact calcLoop_error _ _ _ _ _ _ _ _ _ _
  | some w =>
    simp only
    by_cases hl : m0.length = w.length
    · simp only [hl, if_true]
      exact calcLoop_error _ _ _ _ _ _ _ _ _ _
    · simp [hl]

theorem alignMol_withMatcher (env : Env G T K)
    (f : ROMol G K → ROMol G K → Bool → Bool → Bool → Bool → Int → List MatchVectType)
    (g : ROMol G K → ROMol G K → Bool → Bool → Bool → Option MatchVectType)
    (h : ROMol G K → ROMol G K → List ((Nat × Nat) × (Nat × Nat)))
    (prb ref : ROMol G K) (pc rc : Int) (m : MatchVectType) (w : Option (List K))
    (rf : Bool) (it : Nat) :
    alignMol (env.withMatcher f g h) prb ref pc rc (some m) w rf it =
      alignMol env prb ref pc rc (some m) w rf it := rfl

theorem rmsOfMatch_withMatcher (env : Env G T K)
    (f : ROMol G K → ROMol G K → Bool → Bool → Bool → Bool → Int → List MatchVectType)
    (g : ROMol G K → ROMol G K → Bool → Bool → Bool → Option MatchVectType)
    (h : ROMol G K → ROMol G K → List ((Nat × Nat) × (Nat × Nat)))
    (prb ref : ROMol G K) (pc rc : Int) (wts : List K) (m : MatchVectType) :
    rmsOfMatch (env.withMatcher f g h) prb ref pc rc wts m =
      rmsOfMatch env prb ref pc rc wts m := rfl

/-- C4. `getBestRMS` and `CalcRMS` throw `MolAlignException` exactly when the
list supplied by the caller is empty and the substructure matcher, asked for the
matches of the probe query in the reference, returns none. With a non-empty list
the outcome does not depend on the matcher (it is not consulted), so the error is
not raised. When the error is raised the probe molecule is unchanged. -/
theorem noCorrespondence_iff (env : Env G T K) (probeMol refMol : ROMol G K)
    (probeId refId : Int) (map : List MatchVectType) (maxMatches : Int) (sym : Bool)
    (weights : Option (List K)) :
    ((getBestRMS env probeMol refMol probeId refId map maxMatches sym).result =
        .error .MolAlignException ↔
      map = [] ∧ ∃ q, (if sym then symmetrizeTerminalAtoms env probeMol else .ok probeMol) = .ok q ∧
        env.SubstructMatch refMol q false true false false maxMatches = []) ∧
    ((CalcRMS env probeMol refMol probeId refId map maxMatches weights).result =
        .error .MolAlignException ↔
      map = [] ∧ env.SubstructMatch refMol probeMol false true false false maxMatches = []) ∧
    ((getBestRMS env probeMol refMol probeId refId map maxMatches sym).result =
        .error .MolAlignException →
      (getBestRMS env probeMol refMol probeId refId map maxMatches sym).mol = probeMol) ∧
    ((CalcRMS env probeMol refMol probeId refId map maxMatches weights).result =
        .error .MolAlignException →
      (CalcRMS env probeMol refMol probeId refId map maxMatches weights).mol = probeMol) ∧
    (map ≠ [] → ∀ f g h,
      getBestRMS (env.withMatcher f g h) probeMol refMol probeId refId map maxMatches sym =
        getBestRMS env probeMol refMol probeId refId map maxMatches sym ∧
      CalcRMS (env.withMatcher f g h) probeMol refMol probeId refId map maxMatches weights =
        CalcRMS env probeMol refMol probeId refId map maxMatches weights) := by
  have h1 : ((getBestRMS env probeMol refMol probeId refId map maxMatches sym).result =
        .error .MolAlignException ↔
      map = [] ∧ ∃ q, (if sym then symmetrizeTerminalAtoms env probeMol else .ok probeMol) = .ok q ∧
        env.SubstructMatch refMol q false true false false maxMatches = []) := by
    cases map with
    | cons m0 rest =>
      constructor
      · intro hc; exact absurd hc (getBestRMS_cons_error _ _ _ _ _ _ _ _ _)
      · intro hc; simp at hc
    | nil =>
      rw [getBestRMS_nil]
      cases hq : (if sym then symmetrizeTerminalAtoms env probeMol else .ok probeMol) with
      | error e =>
        have he : e = .Invariant := by
          cases sym with
          | false => simp at hq
          | true => simp at hq; exact symmetrizeTerminalAtoms_error _ _ _ hq
        subst he
        simp
      | ok q =>
        cases hm : env.SubstructMatch refMol q false true false false maxMatches with
        | nil => simp [hm]
        | cons m0 rest =>
          simp only [hm]
          constructor
          · intro hc; exact absurd hc (getBestRMS_cons_error _ _ _ _ _ _ _ _ _)
          · intro hc
            obtain ⟨_, q1, hq1, hq2⟩ := hc
            simp at hq1
            subst hq1
            rw [hm] at hq2
            simp at hq2
  have h2 : ((CalcRMS env probeMol refMol probeId refId map maxMatches weights).result =
        .error .MolAlignException ↔
      map = [] ∧ env.SubstructMatch refMol probeMol false true false false maxMatches = []) := by
    cases map with
    | cons m0 rest =>
      constructor
      · intro hc; exact absurd hc (CalcRMS_cons_error _ _ _ _ _ _ _ _ _)
      · intro hc; simp at hc
    | nil =>
      rw [CalcRMS_nil]
      cases hm : env.SubstructMatch refMol probeMol false true false false maxMatches with
      | nil => simp
      | cons m0 rest =>
        simp only
        constructor
        · intro hc; exact absurd hc (CalcRMS_cons_error _ _ _ _ _ _ _ _ _)
        · intro hc; simp at hc
  refine ⟨h1, h2, ?_, ?_, ?_⟩
  · intro hc
    obtain ⟨rfl, q, hq, hm⟩ := h1.mp hc
    rw [getBestRMS_nil, hq]
    simp only [hm]
  · intro _
    exact CalcRMS_mol _ _ _ _ _ _ _ _
  · intro hne f g h
    cases map with
    | nil => exact absurd rfl hne
    | cons m0 rest =>
      constructor
      · rw [getBestRMS_cons, getBestRMS_cons]
        rfl
      · rw [CalcRMS_cons, CalcRMS_cons]
        rfl

/-! ## The alignments that getBestRMS applies to the probe -/

theorem selectBest_mem {M : Type} (pairs : List (K × M)) (acc : K × M) :
    selectBest acc pairs = acc ∨ selectBest acc pairs ∈ pairs := by
  induction pairs generalizing acc with
  | nil => left; rfl
  | cons p rest ih =>
    simp only [selectBest]
    split
    · rcases ih p with h | h
      · right; rw [h]; exact List.mem_cons_self _ _
      · right; exact List.mem_cons_of_mem _ h
    · rcases ih acc with h | h
      · left; exact h
      · right; exact List.mem_cons_of_mem _ h

theorem runBodies_take {S : Type} (body : S → MatchVectType → Except Exn (K × S))
    (ms : List MatchVectType) (s s1 : S) (vals : List K)
    (h : runBodies body ms s = .ok (vals, s1)) (k : Nat) (m : MatchVectType)
    (hk : ms[k]? = some m) :
    ∃ rsk sk r s2, runBodies body (ms.take k) s = .ok (rsk, sk) ∧ body sk m = .ok (r, s2) ∧
      vals[k]? = some r := by
  induction ms generalizing s vals k with
  | nil => simp at hk
  | cons x rest ih =>
    simp only [runBodies] at h
    cases hb : body s x with
    | error e => simp [hb] at h
    | ok p =>
      obtain ⟨r, s3⟩ := p
      cases hr : runBodies body rest s3 with
      | error e => simp [hb, hr] at h
      | ok q =>
        obtain ⟨rs, s4⟩ := q
        simp [hb, hr] at h
        obtain ⟨rfl, rfl⟩ := h
        cases k with
        | zero =>
          simp at hk
          subst hk
          exact ⟨[], s, r, s3, by simp [runBodies], hb, by simp⟩
        | succ k =>
          simp at hk
          obtain ⟨rsk, sk, r1, s2, h1, h2, h3⟩ := ih s3 rs hr k hk
          exact ⟨r :: rsk, sk, r1, s2, by simp [runBodies, hb, h1], h2, by simpa using h3⟩

theorem getBestRMS_run (env : Env G T K) (probeMol refMol : ROMol G K) (probeId refId : Int)
    (map : List MatchVectType) (maxMatches : Int) (sym : Bool) (vals : List K)
    (prbEnd : ROMol G K) (hne : map ≠ [])
    (hrun : alignSeq env refMol probeId refId map probeMol = .ok (vals, prbEnd)) :
    bestLoop
        (fun prb matche => alignMol env prb refMol probeId refId (some matche)
          env.defWeights env.defReflect env.defMaxIterations)
        map.length 0 map 1e300 probeMol =
      (.ok ((selectBest ((1e300 : K), map.headD []) (vals.zip map)).1,
        map.set 0 (selectBest ((1e300 : K), map.headD []) (vals.zip map)).2), prbEnd) ∧
    (selectBest ((1e300 : K), map.headD []) (vals.zip map)).2 ∈ map ∧
    (map.length = 1 →
      getBestRMS env probeMol refMol probeId refId map maxMatches sym =
        ⟨.ok (selectBest ((1e300 : K), map.headD []) (vals.zip map)).1, prbEnd⟩) ∧
    (map.length ≠ 1 → ∃ r prbFin,
      alignMol env prbEnd refMol probeId refId
          (some (selectBest ((1e300 : K), map.headD []) (vals.zip map)).2)
          env.defWeights env.defReflect env.defMaxIterations = .ok (r, prbFin) ∧
      getBestRMS env probeMol refMol probeId refId map maxMatches sym =
        ⟨.ok (selectBest ((1e300 : K), map.headD []) (vals.zip map)).1, prbFin⟩) := by
  have hloop := bestLoop_ok
    (fun prb matche => alignMol env prb refMol probeId refId (some matche)
      env.defWeights env.defReflect env.defMaxIterations)
    map.length 0 map 1e300 probeMol vals prbEnd (by simp) hne (by simpa [alignSeq] using hrun)
  simp only [List.drop_zero] at hloop
  have hmem : (selectBest ((1e300 : K), map.headD []) (vals.zip map)).2 ∈ map := by
    rcases selectBest_mem (vals.zip map) ((1e300 : K), map.headD []) with h | h
    · rw [h]
      cases map with
      | nil => exact absurd rfl hne
      | cons m0 rest => simp
    · exact (List.of_mem_zip h).2
  generalize selectBest ((1e300 : K), map.headD []) (vals.zip map) = sel at hloop hmem
  refine ⟨hloop, hmem, ?_, ?_⟩
  · intro h1
    cases map with
    | nil => exact absurd rfl hne
    | cons m0 rest =>
      rw [getBestRMS_cons, hloop]
      simp only [List.set_cons_zero, List.length_cons]
      have : rest.length = 0 := by simpa using h1
      simp [this]
  · intro h1
    have hal := alignSeq_alignable env refMol probeId refId _ _ _ _ hrun sel.2 hmem
    obtain ⟨r, i, c, tr, _, hfin⟩ :=
      alignMol_ok_of env prbEnd refMol probeId refId sel.2 env.defWeights env.defReflect
        env.defMaxIterations hal
    refine ⟨r, _, hfin, ?_⟩
    cases map with
    | nil => exact absurd rfl hne
    | cons m0 rest =>
      rw [getBestRMS_cons, hloop]
      simp only [List.set_cons_zero, List.length_cons, List.headD_cons]
      have : 0 ≠ rest.length + 1 - 1 := by
        have h2 : rest.length ≠ 0 := by
          intro h0
          apply h1
          simp [h0]
        omega
      rw [if_pos this, hfin]

theorem selectBest_cases {M : Type} (vals : List K) (ms : List M) (b : K) (d : M)
    (hlen : vals.length = ms.length) :
    ((∀ v ∈ vals, b ≤ v) ∧ selectBest (b, d) (vals.zip ms) = (b, d)) ∨
    (∃ j, vals[j]? = some (selectBest (b, d) (vals.zip ms)).1 ∧
      ms[j]? = some (selectBest (b, d) (vals.zip ms)).2 ∧
      (selectBest (b, d) (vals.zip ms)).1 < b ∧
      (∀ (k : Nat) (u : K), vals[k]? = some u → (selectBest (b, d) (vals.zip ms)).1 ≤ u) ∧
      (∀ (k : Nat) (u : K), k < j → vals[k]? = some u →
        (selectBest (b, d) (vals.zip ms)).1 < u)) := by
  have hidx : ∀ (k : Nat) (u : K), vals[k]? = some u →
      ∃ hk : k < ms.length, (vals.zip ms)[k]? = some (u, ms[k]) := by
    intro k u hk
    have hkl : k < ms.length := by
      rw [← hlen]
      by_contra hc
      have : vals[k]? = none := by simp; omega
      rw [this] at hk; simp at hk
    refine ⟨hkl, ?_⟩
    rw [List.getElem?_zip_eq_some]
    exact ⟨hk, by simp [hkl]⟩
  rcases selectBest_spec (vals.zip ms) (b, d) with ⟨h1, h2⟩ | ⟨j, h1, h2, h3, h4⟩
  · left
    refine ⟨?_, h1⟩
    intro v hv
    obtain ⟨k, hk⟩ := List.getElem?_of_mem hv
    obtain ⟨hkl, hq⟩ := hidx k v hk
    exact h2 (v, ms[k]) (List.getElem?_mem hq)
  · right
    have hz := h1
    rw [List.getElem?_zip_eq_some] at hz
    refine ⟨j, hz.1, hz.2, h2, ?_, ?_⟩
    · intro k u hk
      obtain ⟨hkl, hq⟩ := hidx k u hk
      exact h4 (u, ms[k]) (List.getElem?_mem hq)
    · intro k u hkj hk
      obtain ⟨hkl, hq⟩ := hidx k u hk
      exact h3 k (u, ms[k]) hkj hq

/-- C10. In `getBestRMS` the best candidate is tracked by copying it into slot 0
of the candidate vector: for a non-empty candidate list with `m` entries on
which the `alignMol` calls of the loop return with the values `vals`, the loop
ends with `best` and with the vector `map.set 0 w` (the other slots untouched),
where `best` and `w` are the value and the candidate at the first position `j`
attaining the minimum of `vals` when that minimum is below 1e300, and 1e300 and
the candidate of slot 0 when no value is below 1e300. The re-alignment after the
loop is performed exactly when `m` is not 1, whichever candidate won (also when
`w` is the last candidate), and it aligns the content `w` of slot 0: the probe
ends in the state reached by the calls `calls`, which are the `m` candidates for
`m = 1` and the `m` candidates followed by `w`, that is `m + 1` calls,
otherwise. -/
theorem getBestRMS_final_alignment (env : Env G T K) (probeMol refMol : ROMol G K)
    (probeId refId : Int) (map : List MatchVectType) (maxMatches : Int) (sym : Bool)
    (vals : List K) (prbEnd : ROMol G K) (hne : map ≠ [])
    (hrun : alignSeq env refMol probeId refId map probeMol = .ok (vals, prbEnd)) :
    ∃ (w : MatchVectType) (best : K),
      (((∀ v ∈ vals, (1e300 : K) ≤ v) ∧ best = 1e300 ∧ map[0]? = some w) ∨
        (∃ j, vals[j]? = some best ∧ map[j]? = some w ∧ best < 1e300 ∧
          (∀ (k : Nat) (u : K), vals[k]? = some u → best ≤ u) ∧
          (∀ (k : Nat) (u : K), k < j → vals[k]? = some u → best < u))) ∧
      w ∈ map ∧
      bestLoop
          (fun prb matche => alignMol env prb refMol probeId refId (some matche)
            env.defWeights env.defReflect env.defMaxIterations)
          map.length 0 map 1e300 probeMol = (.ok (best, map.set 0 w), prbEnd) ∧
      (map.set 0 w)[0]? = some w ∧
      (∀ k, 0 < k → (map.set 0 w)[k]? = map[k]?) ∧
      (map.length = 1 →
        getBestRMS env probeMol refMol probeId refId map maxMatches sym = ⟨.ok best, prbEnd⟩) ∧
      (map.length ≠ 1 → ∃ r prbFin,
        alignMol env prbEnd refMol probeId refId (some w) env.defWeights env.defReflect
          env.defMaxIterations = .ok (r, prbFin) ∧
        getBestRMS env probeMol refMol probeId refId map maxMatches sym = ⟨.ok best, prbFin⟩) ∧
      ∃ (calls : List MatchVectType) (rs : List K),
        calls = (if map.length = 1 then map else map ++ [w]) ∧
        calls.length = (if map.length = 1 then 1 else map.length + 1) ∧
        alignSeq env refMol probeId refId calls probeMol =
          .ok (rs, (getBestRMS env probeMol refMol probeId refId map maxMatches sym).mol) := by
  obtain ⟨h1, h2, h3, h4⟩ :=
    getBestRMS_run env probeMol refMol probeId refId map maxMatches sym vals prbEnd hne hrun
  have hlen := runBodies_length _ _ _ _ _ hrun
  have hpin := selectBest_cases vals map (1e300 : K) (map.headD []) hlen
  have hpos : 0 < map.length := List.length_pos.mpr hne
  refine ⟨_, _, ?_, h2, h1, ?_, ?_, h3, h4, ?_⟩
  · rcases hpin with ⟨p1, p2⟩ | ⟨j, p1, p2, p3, p4, p5⟩
    · left
      rw [p2]
      refine ⟨p1, rfl, ?_⟩
      cases map with
      | nil => exact absurd rfl hne
      | cons m0 rest => simp
    · right
      exact ⟨j, p1, p2, p3, p4, p5⟩
  · simp [hpos]
  · intro k hk
    rw [List.getElem?_set_ne (by omega)]
  · by_cases hm : map.length = 1
    · refine ⟨map, vals, by simp [hm], by simp [hm], ?_⟩
      rw [h3 hm]
      exact hrun
    · obtain ⟨r, prbFin, hfin, hres⟩ := h4 hm
      refine ⟨map ++ [(selectBest ((1e300 : K), map.headD []) (vals.zip map)).2], vals ++ [r],
        by rw [if_neg hm], by rw [if_neg hm]; simp, ?_⟩
      rw [hres]
      apply runBodies_append _ _ _ _ _ _ _ _ hrun
      simp only [runBodies, hfin]

/-- C9, as amended. For a non-empty candidate list on which the `alignMol` calls of
the loop return, `getBestRMS` scores candidate `k` by `alignMol` on the probe as
the alignments of the candidates before it left it, and that call replaces the
probe conformer by its transform; the value returned is the running minimum of
these scores starting from 1e300. The probe is transformed once for every
candidate scored and once more after the loop when there is more than one
candidate: it ends in the state reached by a sequence of calls that starts with
the candidates and has `m` calls for `m = 1` and `m + 1` calls otherwise. -/
theorem getBestRMS_scoring_transforms (env : Env G T K) (probeMol refMol : ROMol G K)
    (probeId refId : Int) (map : List MatchVectType) (maxMatches : Int) (sym : Bool)
    (vals : List K) (prbEnd : ROMol G K) (hne : map ≠ [])
    (hrun : alignSeq env refMol probeId refId map probeMol = .ok (vals, prbEnd)) :
    (∀ (k : Nat) (m : MatchVectType), map[k]? = some m →
      ∃ rsk sk r sk1 i c tr,
        alignSeq env refMol probeId refId (map.take k) probeMol = .ok (rsk, sk) ∧
        alignMol env sk refMol probeId refId (some m) env.defWeights env.defReflect
          env.defMaxIterations = .ok (r, sk1) ∧
        vals[k]? = some r ∧
        sk.getConformerRef probeId = .ok (i, c) ∧
        sk1 = sk.setConf i (transformConformer env c tr)) ∧
    (getBestRMS env probeMol refMol probeId refId map maxMatches sym).result =
      .ok (selectBest ((1e300 : K), map.headD []) (vals.zip map)).1 ∧
    ∃ (calls : List MatchVectType) (rs : List K),
      map <+: calls ∧
      calls.length = (if map.length = 1 then 1 else map.length + 1) ∧
      alignSeq env refMol probeId refId calls probeMol =
        .ok (rs, (getBestRMS env probeMol refMol probeId refId map maxMatches sym).mol) := by
  obtain ⟨_, _, h3, h4⟩ :=
    getBestRMS_run env probeMol refMol probeId refId map maxMatches sym vals prbEnd hne hrun
  refine ⟨?_, ?_, ?_⟩
  · intro k m hk
    obtain ⟨rsk, sk, r, s2, ha, hb, hc⟩ := runBodies_take _ _ _ _ _ hrun k m hk
    obtain ⟨_, i, c, tr, hic, hs⟩ := alignMol_ok_inv _ _ _ _ _ _ _ _ _ _ _ hb
    exact ⟨rsk, sk, r, s2, i, c, tr, ha, hb, hc, hic, hs⟩
  · by_cases hm : map.length = 1
    · rw [h3 hm]
    · obtain ⟨r, prbFin, _, hres⟩ := h4 hm
      rw [hres]
  · by_cases hm : map.length = 1
    · refine ⟨map, vals, List.prefix_refl _, by simp [hm], ?_⟩
      rw [h3 hm]
      exact hrun
    · obtain ⟨r, prbFin, hfin, hres⟩ := h4 hm
      refine ⟨map ++ [(selectBest ((1e300 : K), map.headD []) (vals.zip map)).2], vals ++ [r],
        List.prefix_append _ _, by rw [if_neg hm]; simp, ?_⟩
      rw [hres]
      apply runBodies_append _ _ _ _ _ _ _ _ hrun
      simp only [runBodies, hfin]

/-! ## Evaluation on concrete inputs -/

theorem rat_sqrt_zero : Rat.sqrt 0 = 0 := by
  have := Rat.sqrt_eq 0
  rw [mul_zero, abs_zero] at this
  exact this

theorem rat_sqrt_four : Rat.sqrt 4 = 2 := by
  rw [show (4 : ℚ) = 2 * 2 by norm_num, Rat.sqrt_eq]
  norm_num

theorem rat_sqrt_sixteen : Rat.sqrt 16 = 4 := by
  rw [show (16 : ℚ) = 4 * 4 by norm_num, Rat.sqrt_eq]
  norm_num

theorem getElem_one_cons {A : Type} (a b : A) (l : List A) (h : 1 < (a :: b :: l).length) :
    (a :: b :: l)[1] = b := rfl

theorem oneAtom_alignSeq :
    alignSeq ratEnv twoAtomRef 0 0 twoCandidates oneAtomProbe =
      .ok ([0, 0], ⟨(), [⟨0, [⟨3, 0, 0⟩]⟩]⟩) := by
  norm_num [twoCandidates, alignSeq, runBodies, alignMol, getAlignmentTransform, AlignPoints, ratEnv,
    translationEnv, translationSolve, transformConformer, ROMol.setConf, ROMol.getConformer,
    ROMol.getConformerRef, findConf, collectPoints, Conformer.getAtomPos, Point3D.sub,
    Point3D.add, Point3D.lengthSq, oneAtomProbe, twoAtomRef, List.zipWith3, rat_sqrt_zero]

theorem twoAtom_alignSeq :
    alignSeq ratEnv threeAtomRef 0 0 threeCandidates twoAtomProbe =
      .ok ([2, 0, 0], ⟨(), [⟨0, [⟨0, 0, 0⟩, ⟨2, 0, 0⟩]⟩]⟩) := by
  norm_num [threeCandidates, alignSeq, runBodies, alignMol, getAlignmentTransform, AlignPoints, ratEnv,
    translationEnv, translationSolve, transformConformer, ROMol.setConf, ROMol.getConformer,
    ROMol.getConformerRef, findConf, collectPoints, Conformer.getAtomPos, Point3D.sub,
    Point3D.add, Point3D.lengthSq, twoAtomProbe, threeAtomRef, List.zipWith3, rat_sqrt_zero,
    rat_sqrt_four, getElem_one_cons]

/-- C9, counterexample. Probe atom at (1,0,0), reference atoms at (0,0,0) and
(3,0,0), candidates [(0,0)] and [(0,1)]: scoring the first candidate alone moves
the probe atom to (0,0,0); when the scoring loop ends the probe atom is at
(3,0,0), so the second candidate was scored on the moved probe and the probe was
transformed before the end of the scoring; the call then applies a third
transform and leaves the atom at (0,0,0). -/
theorem getBestRMS_scoring_moves_probe :
    alignMol ratEnv oneAtomProbe twoAtomRef 0 0 (some [(0, 0)]) none false 50 =
      .ok (0, ⟨(), [⟨0, [⟨0, 0, 0⟩]⟩]⟩) ∧
    (bestLoop
        (fun prb matche => alignMol ratEnv prb twoAtomRef 0 0 (some matche) none false 50)
        2 0 twoCandidates 1e300 oneAtomProbe).2 = ⟨(), [⟨0, [⟨3, 0, 0⟩]⟩]⟩ ∧
    getBestRMS ratEnv oneAtomProbe twoAtomRef 0 0 twoCandidates 0 false =
      ⟨.ok 0, ⟨(), [⟨0, [⟨0, 0, 0⟩]⟩]⟩⟩ := by
  refine ⟨?_, ?_, ?_⟩
  · norm_num [alignMol, getAlignmentTransform, AlignPoints, ratEnv,
      translationEnv, translationSolve, transformConformer, ROMol.setConf, ROMol.getConformer,
      ROMol.getConformerRef, findConf, collectPoints, Conformer.getAtomPos, Point3D.sub,
      Point3D.add, Point3D.lengthSq, oneAtomProbe, twoAtomRef, List.zipWith3, rat_sqrt_zero]
  · norm_num [twoCandidates, bestLoop, alignMol, getAlignmentTransform, AlignPoints, ratEnv,
      translationEnv, translationSolve, transformConformer, ROMol.setConf, ROMol.getConformer,
      ROMol.getConformerRef, findConf, collectPoints, Conformer.getAtomPos, Point3D.sub,
      Point3D.add, Point3D.lengthSq, oneAtomProbe, twoAtomRef, List.zipWith3, rat_sqrt_zero]
  · norm_num [twoCandidates, getBestRMS, bestLoop, alignMol, getAlignmentTransform, AlignPoints, ratEnv,
      translationEnv, translationSolve, transformConformer, ROMol.setConf, ROMol.getConformer,
      ROMol.getConformerRef, findConf, collectPoints, Conformer.getAtomPos, Point3D.sub,
      Point3D.add, Point3D.lengthSq, oneAtomProbe, twoAtomRef, List.zipWith3, rat_sqrt_zero]

theorem threeCandidates_ne : threeCandidates ≠ [] := by
  simp [threeCandidates]

theorem twoCandidates_ne : twoCandidates ≠ [] := by
  simp [twoCandidates]

/-- C1, witness: the three candidates with RMS values 2, 0 and 0. -/
theorem getBestRMS_selects_first_minimum_witness :
    threeCandidates ≠ [] ∧
    alignSeq ratEnv threeAtomRef 0 0 threeCandidates twoAtomProbe =
      .ok ([2, 0, 0], ⟨(), [⟨0, [⟨0, 0, 0⟩, ⟨2, 0, 0⟩]⟩]⟩) ∧
    (∀ v ∈ ([2, 0, 0] : List ℚ), v < 1e300) ∧
    ∃ (j : Nat) (v : ℚ) (m : MatchVectType),
      ([2, 0, 0] : List ℚ)[j]? = some v ∧ threeCandidates[j]? = some m ∧
      (∀ (k : Nat) (u : ℚ), ([2, 0, 0] : List ℚ)[k]? = some u → v ≤ u) ∧
      (∀ (k : Nat) (u : ℚ), k < j → ([2, 0, 0] : List ℚ)[k]? = some u → v < u) ∧
      (getBestRMS ratEnv twoAtomProbe threeAtomRef 0 0 threeCandidates 0 false).result = .ok v ∧
      ∃ (calls : List MatchVectType) (rs : List ℚ),
        (calls = threeCandidates ∨ calls = threeCandidates ++ [m]) ∧
        calls.getLast? = some m ∧
        alignSeq ratEnv threeAtomRef 0 0 calls twoAtomProbe =
          .ok (rs, (getBestRMS ratEnv twoAtomProbe threeAtomRef 0 0 threeCandidates 0
            false).mol) :=
  ⟨threeCandidates_ne, twoAtom_alignSeq, by norm_num,
    getBestRMS_selects_first_minimum ratEnv twoAtomProbe threeAtomRef 0 0 threeCandidates 0
      false [2, 0, 0] _ threeCandidates_ne twoAtom_alignSeq (by norm_num)⟩

/-- C9, witness of the amended statement: the two candidates of the
counterexample. -/
theorem getBestRMS_scoring_transforms_witness :
    twoCandidates ≠ [] ∧
    alignSeq ratEnv twoAtomRef 0 0 twoCandidates oneAtomProbe =
      .ok ([0, 0], ⟨(), [⟨0, [⟨3, 0, 0⟩]⟩]⟩) ∧
    ((∀ (k : Nat) (m : MatchVectType), twoCandidates[k]? = some m →
      ∃ rsk sk r sk1 i c tr,
        alignSeq ratEnv twoAtomRef 0 0 (twoCandidates.take k) oneAtomProbe = .ok (rsk, sk) ∧
        alignMol ratEnv sk twoAtomRef 0 0 (some m) ratEnv.defWeights ratEnv.defReflect
          ratEnv.defMaxIterations = .ok (r, sk1) ∧
        ([0, 0] : List ℚ)[k]? = some r ∧
        sk.getConformerRef 0 = .ok (i, c) ∧
        sk1 = sk.setConf i (transformConformer ratEnv c tr)) ∧
    (getBestRMS ratEnv oneAtomProbe twoAtomRef 0 0 twoCandidates 0 false).result =
      .ok (selectBest ((1e300 : ℚ), twoCandidates.headD []) (([0, 0] : List ℚ).zip
        twoCandidates)).1 ∧
    ∃ (calls : List MatchVectType) (rs : List ℚ),
      twoCandidates <+: calls ∧
      calls.length = (if twoCandidates.length = 1 then 1 else twoCandidates.length + 1) ∧
      alignSeq ratEnv twoAtomRef 0 0 calls oneAtomProbe =
        .ok (rs, (getBestRMS ratEnv oneAtomProbe twoAtomRef 0 0 twoCandidates 0 false).mol)) :=
  ⟨twoCandidates_ne, oneAtom_alignSeq,
    getBestRMS_scoring_transforms ratEnv oneAtomProbe twoAtomRef 0 0 twoCandidates 0 false
      [0, 0] _ twoCandidates_ne oneAtom_alignSeq⟩

theorem lastWins_ne : lastWins ≠ [] := by
  simp [lastWins]

theorem lastWins_alignSeq :
    alignSeq ratEnv threeAtomRef 0 0 lastWins twoAtomProbe =
      .ok ([2, 0], ⟨(), [⟨0, [⟨0, 0, 0⟩, ⟨2, 0, 0⟩]⟩]⟩) := by
  norm_num [lastWins, alignSeq, runBodies, alignMol, getAlignmentTransform, AlignPoints, ratEnv,
    translationEnv, translationSolve, transformConformer, ROMol.setConf, ROMol.getConformer,
    ROMol.getConformerRef, findConf, collectPoints, Conformer.getAtomPos, Point3D.sub,
    Point3D.add, Point3D.lengthSq, twoAtomProbe, threeAtomRef, List.zipWith3, rat_sqrt_zero,
    rat_sqrt_four, getElem_one_cons]

/-- C10, witness: two candidates with RMS values 2 and 0; the winner is the last
candidate, it is copied into slot 0, and the re-alignment is performed (three
calls). -/
theorem getBestRMS_final_alignment_witness :
    lastWins ≠ [] ∧
    alignSeq ratEnv threeAtomRef 0 0 lastWins twoAtomProbe =
      .ok ([2, 0], ⟨(), [⟨0, [⟨0, 0, 0⟩, ⟨2, 0, 0⟩]⟩]⟩) ∧
    ∃ (w : MatchVectType) (best : ℚ),
      (((∀ v ∈ ([2, 0] : List ℚ), (1e300 : ℚ) ≤ v) ∧ best = 1e300 ∧ lastWins[0]? = some w) ∨
        (∃ j, ([2, 0] : List ℚ)[j]? = some best ∧ lastWins[j]? = some w ∧ best < 1e300 ∧
          (∀ (k : Nat) (u : ℚ), ([2, 0] : List ℚ)[k]? = some u → best ≤ u) ∧
          (∀ (k : Nat) (u : ℚ), k < j → ([2, 0] : List ℚ)[k]? = some u → best < u))) ∧
      w ∈ lastWins ∧
      bestLoop
          (fun prb matche => alignMol ratEnv prb threeAtomRef 0 0 (some matche)
            ratEnv.defWeights ratEnv.defReflect ratEnv.defMaxIterations)
          lastWins.length 0 lastWins 1e300 twoAtomProbe =
        (.ok (best, lastWins.set 0 w), ⟨(), [⟨0, [⟨0, 0, 0⟩, ⟨2, 0, 0⟩]⟩]⟩) ∧
      (lastWins.set 0 w)[0]? = some w ∧
      (∀ k, 0 < k → (lastWins.set 0 w)[k]? = lastWins[k]?) ∧
      (lastWins.length = 1 →
        getBestRMS ratEnv twoAtomProbe threeAtomRef 0 0 lastWins 0 false =
          ⟨.ok best, ⟨(), [⟨0, [⟨0, 0, 0⟩, ⟨2, 0, 0⟩]⟩]⟩⟩) ∧
      (lastWins.length ≠ 1 → ∃ r prbFin,
        alignMol ratEnv ⟨(), [⟨0, [⟨0, 0, 0⟩, ⟨2, 0, 0⟩]⟩]⟩ threeAtomRef 0 0 (some w)
          ratEnv.defWeights ratEnv.defReflect ratEnv.defMaxIterations = .ok (r, prbFin) ∧
        getBestRMS ratEnv twoAtomProbe threeAtomRef 0 0 lastWins 0 false =
          ⟨.ok best, prbFin⟩) ∧
      ∃ (calls : List MatchVectType) (rs : List ℚ),
        calls = (if lastWins.length = 1 then lastWins else lastWins ++ [w]) ∧
        calls.length = (if lastWins.length = 1 then 1 else lastWins.length + 1) ∧
        alignSeq ratEnv threeAtomRef 0 0 calls twoAtomProbe =
          .ok (rs, (getBestRMS ratEnv twoAtomProbe threeAtomRef 0 0 lastWins 0 false).mol) :=
  ⟨lastWins_ne, lastWins_alignSeq,
    getBestRMS_final_alignment ratEnv twoAtomProbe threeAtomRef 0 0 lastWins 0 false
      [2, 0] _ lastWins_ne lastWins_alignSeq⟩

/-! ## CalcRMS returns the smallest score -/

theorem selectBest_min {M : Type} (pairs : List (K × M)) (acc : K × M) :
    (selectBest acc pairs).1 ≤ acc.1 ∧ (∀ p ∈ pairs, (selectBest acc pairs).1 ≤ p.1) ∧
    ((selectBest acc pairs).1 = acc.1 ∨ ∃ p ∈ pairs, (selectBest acc pairs).1 = p.1) := by
  rcases selectBest_spec pairs acc with ⟨h1, h2⟩ | ⟨j, h1, h2, _, h4⟩
  · rw [h1]
    exact ⟨le_refl _, h2, Or.inl rfl⟩
  · exact ⟨le_of_lt h2, h4, Or.inr ⟨_, List.getElem?_mem h1, rfl⟩⟩

theorem zip_map_self {A B : Type} (f : A → B) (l : List A) :
    (l.map f).zip l = l.map (fun a => (f a, a)) := by
  induction l with
  | nil => rfl
  | cons a rest ih => simp [ih]

theorem ssrLoopWith_map (ops : DoubleOps K) (wts : List K) (m : MatchVectType)
    (gr gp : Nat × Nat → Point3D K) (n i : Nat) (acc : K) (hn : i + n = m.length)
    (hw : i + n ≤ wts.length) :
    ssrLoopWith ops wts (m.map gr) (m.map gp) n i acc =
      .ok (((wts.drop i).zip (m.drop i)).foldl
        (fun (a : K) (x : K × (Nat × Nat)) =>
          ops.add a (ops.mul x.1 (ops.lengthSq (ops.pointSub (gp x.2) (gr x.2)))))
        acc) := by
  induction n generalizing i acc with
  | zero =>
    have hd : m.drop i = [] := by apply List.drop_eq_nil_of_le; omega
    simp [ssrLoopWith, hd]
  | succ n ih =>
    have hi : i < m.length := by omega
    have hiw : i < wts.length := by omega
    have hd : m.drop i = m[i] :: m.drop (i + 1) := by simp
    have hwd : wts.drop i = wts[i] :: wts.drop (i + 1) := by simp
    have h1 : (m.map gr)[i]? = some (gr m[i]) := by simp [hi]
    have h2 : (m.map gp)[i]? = some (gp m[i]) := by simp [hi]
    have h3 : wts[i]? = some wts[i] := by simp [hiw]
    simp only [ssrLoopWith, h1, h2, h3]
    rw [ih (i + 1) _ (by omega) (by omega), hd, hwd]
    simp only [List.zip_cons_cons, List.foldl_cons]

theorem rmsOfMatchWith_valid (ops : DoubleOps K) (env : Env G T K) (prb ref : ROMol G K)
    (pc rc : Int) (wts : List K) (m : MatchVectType) (c rcf : Conformer K)
    (hp : prb.getConformer pc = .ok c) (hr : ref.getConformer rc = .ok rcf)
    (hv : ∀ pr ∈ m, pr.1 < c.positions.length ∧ pr.2 < rcf.positions.length)
    (hl : m.length ≤ wts.length) :
    rmsOfMatchWith ops env prb ref pc rc wts m =
      .ok (rmsdEvaluatorWith ops env.sqrt c.positions rcf.positions wts m) := by
  unfold rmsOfMatchWith
  simp only [hp, hr, collectPoints_valid c rcf m hv, List.length_map, ne_eq, not_true_eq_false,
    if_false]
  rw [ssrLoopWith_map ops wts m _ _ m.length 0 0 (by simp) (by simpa using hl)]
  simp only [List.drop_zero]
  rfl

theorem calcWith_runBodies (ops : DoubleOps K) (env : Env G T K) (prb ref : ROMol G K)
    (pc rc : Int) (wts : List K) (c rcf : Conformer K)
    (hp : prb.getConformer pc = .ok c) (hr : ref.getConformer rc = .ok rcf)
    (ms : List MatchVectType)
    (hv : ∀ m ∈ ms, ∀ pr ∈ m, pr.1 < c.positions.length ∧ pr.2 < rcf.positions.length)
    (hl : ∀ m ∈ ms, m.length ≤ wts.length) :
    runBodies
        (fun s matche =>
          match rmsOfMatchWith ops env s ref pc rc wts matche with
          | .error e => (Except.error e : Except Exn (K × ROMol G K))
          | .ok rms => .ok (rms, s))
        ms prb =
      .ok (ms.map (rmsdEvaluatorWith ops env.sqrt c.positions rcf.positions wts), prb) := by
  induction ms with
  | nil => rfl
  | cons m rest ih =>
    have h1 := rmsOfMatchWith_valid ops env prb ref pc rc wts m c rcf hp hr
      (hv m (List.mem_cons_self _ _)) (hl m (List.mem_cons_self _ _))
    simp only [runBodies, h1]
    rw [ih (fun m hm => hv m (List.mem_cons_of_mem _ hm))
      (fun m hm => hl m (List.mem_cons_of_mem _ hm))]
    rfl

theorem CalcRMSWith_cons (ops : DoubleOps K) (env : Env G T K) (prbMol refMol : ROMol G K)
    (prbCid refCid : Int) (m0 : MatchVectType) (rest : List MatchVectType) (maxMatches : Int)
    (weights : Option (List K)) :
    CalcRMSWith ops env prbMol refMol prbCid refCid (m0 :: rest) maxMatches weights =
      match (match weights with
        | some w => if m0.length = w.length then Except.ok w else Except.error Exn.Invariant
        | none => Except.ok (List.replicate m0.length 1)) with
      | .error e => ⟨.error e, prbMol⟩
      | .ok wts =>
        match bestLoop
            (fun prb matche =>
              match rmsOfMatchWith ops env prb refMol prbCid refCid wts matche with
              | .error e => .error e
              | .ok rms => .ok (rms, prb))
            (m0 :: rest).length 0 (m0 :: rest) ops.lit1e300 prbMol with
        | (.error e, prb) => ⟨.error e, prb⟩
        | (.ok (bestRMS, _), prb) => ⟨.ok bestRMS, prb⟩ := by
  simp [CalcRMSWith]

theorem ssrLoopWith_exact (wts : List K) (rp pp : List (Point3D K)) (n i : Nat) (acc : K) :
    ssrLoopWith exactOps wts rp pp n i acc = ssrLoop wts rp pp n i acc := by
  induction n generalizing i acc with
  | zero => rfl
  | succ n ih =>
    simp only [ssrLoopWith, ssrLoop]
    split
    · rename_i rpt ppt w _ _ _
      exact ih _ _
    · rfl

theorem rmsOfMatchWith_exact (env : Env G T K) (prb ref : ROMol G K) (pc rc : Int)
    (wts : List K) (m : MatchVectType) :
    rmsOfMatchWith exactOps env prb ref pc rc wts m = rmsOfMatch env prb ref pc rc wts m := by
  unfold rmsOfMatchWith rmsOfMatch
  simp only [ssrLoopWith_exact]
  rfl

/-- The function `CalcRMS` of the exact model is `CalcRMSWith` at the exact
operations. -/
theorem CalcRMSWith_exact (env : Env G T K) (prbMol refMol : ROMol G K) (prbCid refCid : Int)
    (map : List MatchVectType) (maxMatches : Int) (weights : Option (List K)) :
    CalcRMSWith exactOps env prbMol refMol prbCid refCid map maxMatches weights =
      CalcRMS env prbMol refMol prbCid refCid map maxMatches weights := by
  have hl : (exactOps : DoubleOps K).lit1e300 = 1e300 := rfl
  unfold CalcRMSWith CalcRMS
  simp only [rmsOfMatchWith_exact, hl]

/-- C2, as amended. For a non-empty candidate list of correspondences of equal
length `n ≥ 1` whose pairs name atoms of the probe conformer and of the reference
conformer, and a weight vector of length `n` (all ones when absent), `CalcRMS`
returns the smaller of the `double` 1e300 and the minimum over the candidates of the score as
the code computes it, `sqrt (S / n)` with `S` the sum over the pairs, in the
order of the pair list and starting from 0, of `w_i * |p_i - q_i|^2`, every
operation being the one of `double` (`ops`, with its rounding and its overflow;
the scores are numbers, not NaN): the value returned is at most 1e300, at most
the score of every candidate, and it is 1e300 or the score of a candidate. The
divisor is the number of pairs and the same weights serve every candidate. -/
theorem CalcRMSWith_minimum (ops : DoubleOps K) (env : Env G T K)
    (prbMol refMol : ROMol G K) (prbCid refCid : Int)
    (map : List MatchVectType) (maxMatches : Int) (weights : Option (List K)) (n : Nat)
    (prbCnf refCnf : Conformer K)
    (hne : map ≠ []) (hn : 1 ≤ n) (hlen : ∀ m ∈ map, m.length = n)
    (hw : ∀ w, weights = some w → w.length = n)
    (hp : prbMol.getConformer prbCid = .ok prbCnf)
    (hr : refMol.getConformer refCid = .ok refCnf)
    (hv : ∀ m ∈ map, ∀ pr ∈ m,
      pr.1 < prbCnf.positions.length ∧ pr.2 < refCnf.positions.length) :
    ∃ r : K,
      (CalcRMSWith ops env prbMol refMol prbCid refCid map maxMatches weights).result =
        .ok r ∧
      r ≤ ops.lit1e300 ∧
      (∀ m ∈ map, r ≤ rmsdEvaluatorWith ops env.sqrt prbCnf.positions refCnf.positions
        (weights.getD (List.replicate n 1)) m) ∧
      (r = ops.lit1e300 ∨ ∃ m ∈ map, r = rmsdEvaluatorWith ops env.sqrt prbCnf.positions
        refCnf.positions (weights.getD (List.replicate n 1)) m) := by
  cases map with
  | nil => exact absurd rfl hne
  | cons m0 rest =>
    have hm0 : m0.length = n := hlen m0 (List.mem_cons_self _ _)
    have hwts : (match weights with
        | some w => if m0.length = w.length then Except.ok w else Except.error Exn.Invariant
        | none => Except.ok (List.replicate m0.length (1 : K))) =
        .ok (weights.getD (List.replicate n 1)) := by
      cases weights with
      | none => simp [hm0]
      | some w => simp [hm0, hw w rfl]
    have hwl : (weights.getD (List.replicate n 1)).length = n := by
      cases weights with
      | none => simp
      | some w => simpa using hw w rfl
    have hrun := calcWith_runBodies ops env prbMol refMol prbCid refCid
      (weights.getD (List.replicate n 1)) prbCnf refCnf hp hr (m0 :: rest) hv
      (fun m hm => by rw [hwl, hlen m hm])
    have hloop := bestLoop_ok _ (m0 :: rest).length 0 (m0 :: rest) ops.lit1e300 prbMol _ _
      (by simp) hne (by rw [List.drop_zero]; exact hrun)
    rw [CalcRMSWith_cons, hwts]
    simp only
    rw [hloop]
    simp only [List.drop_zero]
    rw [zip_map_self]
    obtain ⟨h1, h2, h3⟩ := selectBest_min
      ((m0 :: rest).map (fun a => (rmsdEvaluatorWith ops env.sqrt prbCnf.positions
        refCnf.positions (weights.getD (List.replicate n 1)) a, a)))
      (ops.lit1e300, (m0 :: rest).headD [])
    refine ⟨_, rfl, h1, ?_, ?_⟩
    · intro m hm
      exact h2 (_, m) (List.mem_map.mpr ⟨m, hm, rfl⟩)
    · rcases h3 with h3 | ⟨p, hp1, hp2⟩
      · left; exact h3
      · right
        obtain ⟨m, hm, rfl⟩ := List.mem_map.mp hp1
        exact ⟨m, hm, hp2⟩

theorem oneAtom_CalcRMS (x : ℚ) (hx : 0 ≤ x) :
    CalcRMS ratEnv ⟨(), [⟨0, [⟨x, 0, 0⟩]⟩]⟩ originRef 0 0 [[(0, 0)]] 0 none =
      ⟨.ok (if x < 1e300 then x else 1e300), ⟨(), [⟨0, [⟨x, 0, 0⟩]⟩]⟩⟩ := by
  by_cases h : x < 1e300 <;>
  simp [CalcRMS, bestLoop, rmsOfMatch, originRef, ROMol.getConformer, ROMol.getConformerRef,
    findConf, collectPoints, Conformer.getAtomPos, ssrLoop, Point3D.sub, Point3D.lengthSq,
    ratEnv, translationEnv, Rat.sqrt_eq, abs_of_nonneg hx, h]

theorem oneAtom_rmsd (x : ℚ) (hx : 0 ≤ x) :
    rmsdEvaluator Rat.sqrt [⟨x, 0, 0⟩] [⟨0, 0, 0⟩] [1] [(0, 0)] = x := by
  simp [rmsdEvaluator, Point3D.sub, Point3D.lengthSq, Rat.sqrt_eq, abs_of_nonneg hx]

theorem dblMax_lt_posInf : dblMax < posInf := by
  unfold dblMax posInf
  norm_num

theorem overflow_posInf : overflow posInf = posInf := by
  unfold overflow
  rw [if_pos dblMax_lt_posInf]

theorem overflow_zero : overflow 0 = 0 := by
  unfold overflow dblMax
  norm_num

theorem overflow_1e200 : overflow 1e200 = 1e200 := by
  unfold overflow dblMax
  norm_num

theorem overflow_1e400 : overflow (1e200 * 1e200) = posInf := by
  unfold overflow dblMax
  norm_num

theorem overflowSqrt_posInf : overflowSqrt posInf = posInf := by
  unfold overflowSqrt
  rw [if_pos dblMax_lt_posInf]

theorem posInf_not_lt : ¬ posInf < (1e300 : ℚ) := by
  unfold posInf
  norm_num

theorem distant_rmsdWith :
    rmsdEvaluatorWith overflowOps overflowSqrt [⟨1e200, 0, 0⟩] [⟨0, 0, 0⟩] [1] [(0, 0)] =
      posInf := by
  simp only [rmsdEvaluatorWith, overflowOps, DoubleOps.lengthSq, DoubleOps.pointSub,
    List.zip_cons_cons, List.zip_nil_right, List.foldl_cons, List.foldl_nil,
    List.getD_cons_zero, sub_zero, mul_zero, add_zero, zero_add, one_mul, overflow_zero,
    overflow_1e200, overflow_1e400, overflow_posInf, List.length_singleton, Nat.cast_one,
    div_one, overflowSqrt_posInf]

theorem distant_getConformer : distantProbe.getConformer 0 = .ok ⟨0, [⟨1e200, 0, 0⟩]⟩ := by
  simp [distantProbe, ROMol.getConformer, ROMol.getConformerRef, findConf]

theorem origin_getConformer : originRef.getConformer 0 = .ok ⟨0, [⟨0, 0, 0⟩]⟩ := by
  simp [originRef, ROMol.getConformer, ROMol.getConformerRef, findConf]

theorem distant_CalcRMSWith :
    CalcRMSWith overflowOps overflowEnv distantProbe originRef 0 0 [[(0, 0)]] 0 none =
      ⟨.ok 1e300, distantProbe⟩ := by
  have hs := rmsOfMatchWith_valid overflowOps overflowEnv distantProbe originRef 0 0 [1]
    [(0, 0)] _ _ distant_getConformer origin_getConformer (by decide) (by simp)
  have hsq : overflowEnv.sqrt = overflowSqrt := rfl
  rw [hsq, distant_rmsdWith] at hs
  have hl : overflowOps.lit1e300 = 1e300 := rfl
  rw [CalcRMSWith_cons]
  simp only [List.length_singleton, List.replicate_one, List.length_nil, bestLoop, hs,
    List.getElem?_cons_zero, hl, posInf_not_lt, if_false]

/-- C2, counterexample. One candidate with one pair, reference atom at the origin,
no weights. In exact arithmetic, with the probe atom at (1e301,0,0): the score of
the candidate, which is the minimum over the candidates, is 1e301, and `CalcRMS`
returns 1e300. With operations that overflow as those of `double` do, and the
probe atom at (1e200,0,0): the RmsdEvaluator of the candidate is 1e200, the square
of 1e200 overflows, the score the code computes is the infinity, and `CalcRMS`
returns 1e300. -/
theorem CalcRMS_returns_sentinel :
    rmsdEvaluator Rat.sqrt [⟨1e301, 0, 0⟩] [⟨0, 0, 0⟩] [1] [(0, 0)] = 1e301 ∧
    (CalcRMS ratEnv farProbe originRef 0 0 [[(0, 0)]] 0 none).result = .ok 1e300 ∧
    (1e300 : ℚ) ≠ 1e301 ∧
    rmsdEvaluator Rat.sqrt [⟨1e200, 0, 0⟩] [⟨0, 0, 0⟩] [1] [(0, 0)] = 1e200 ∧
    rmsdEvaluatorWith overflowOps overflowSqrt [⟨1e200, 0, 0⟩] [⟨0, 0, 0⟩] [1] [(0, 0)] =
      posInf ∧
    (CalcRMSWith overflowOps overflowEnv distantProbe originRef 0 0 [[(0, 0)]] 0 none).result =
      .ok 1e300 ∧
    (1e300 : ℚ) ≠ 1e200 := by
  refine ⟨oneAtom_rmsd _ (by norm_num), ?_, by norm_num, oneAtom_rmsd _ (by norm_num),
    distant_rmsdWith, ?_, by norm_num⟩
  · unfold farProbe
    rw [oneAtom_CalcRMS _ (by norm_num)]
    norm_num
  · rw [distant_CalcRMSWith]

theorem spread_getConformer : spreadProbe.getConformer 0 = .ok ⟨0, [⟨0, 0, 0⟩, ⟨2, 0, 0⟩]⟩ := by
  simp [spreadProbe, ROMol.getConformer, ROMol.getConformerRef, findConf]

theorem point_getConformer : pointRef.getConformer 0 = .ok ⟨0, [⟨0, 0, 0⟩, ⟨0, 0, 0⟩]⟩ := by
  simp [pointRef, ROMol.getConformer, ROMol.getConformerRef, findConf]

/-- C2, witness of the amended statement: operations that overflow, two candidates
of two pairs, weights (2, 8). -/
theorem CalcRMSWith_minimum_witness :
    ([[(0, 0), (1, 1)], [(1, 1), (0, 0)]] : List MatchVectType) ≠ [] ∧ 1 ≤ 2 ∧
    (∀ m ∈ ([[(0, 0), (1, 1)], [(1, 1), (0, 0)]] : List MatchVectType), m.length = 2) ∧
    (∀ w, some ([2, 8] : List ℚ) = some w → w.length = 2) ∧
    spreadProbe.getConformer 0 = .ok ⟨0, [⟨0, 0, 0⟩, ⟨2, 0, 0⟩]⟩ ∧
    pointRef.getConformer 0 = .ok ⟨0, [⟨0, 0, 0⟩, ⟨0, 0, 0⟩]⟩ ∧
    ∃ r : ℚ,
      (CalcRMSWith overflowOps overflowEnv spreadProbe pointRef 0 0
        [[(0, 0), (1, 1)], [(1, 1), (0, 0)]] 0 (some [2, 8])).result = .ok r ∧
      r ≤ overflowOps.lit1e300 ∧
      (∀ m ∈ ([[(0, 0), (1, 1)], [(1, 1), (0, 0)]] : List MatchVectType),
        r ≤ rmsdEvaluatorWith overflowOps overflowEnv.sqrt [⟨0, 0, 0⟩, ⟨2, 0, 0⟩]
          [⟨0, 0, 0⟩, ⟨0, 0, 0⟩] ((some ([2, 8] : List ℚ)).getD (List.replicate 2 1)) m) ∧
      (r = overflowOps.lit1e300 ∨
        ∃ m ∈ ([[(0, 0), (1, 1)], [(1, 1), (0, 0)]] : List MatchVectType),
          r = rmsdEvaluatorWith overflowOps overflowEnv.sqrt [⟨0, 0, 0⟩, ⟨2, 0, 0⟩]
            [⟨0, 0, 0⟩, ⟨0, 0, 0⟩] ((some ([2, 8] : List ℚ)).getD (List.replicate 2 1)) m) :=
  ⟨by simp, by norm_num, by simp, by simp, spread_getConformer, point_getConformer,
    CalcRMSWith_minimum overflowOps overflowEnv spreadProbe pointRef 0 0
      [[(0, 0), (1, 1)], [(1, 1), (0, 0)]] 0 (some [2, 8]) 2 ⟨0, [⟨0, 0, 0⟩, ⟨2, 0, 0⟩]⟩
      ⟨0, [⟨0, 0, 0⟩, ⟨0, 0, 0⟩]⟩ (by simp) (by norm_num) (by simp) (by simp)
      spread_getConformer point_getConformer (by decide)⟩

/-! ## The score of a permuted correspondence -/

theorem zipWith_eq_map_zip {A B C : Type} (f : B → A → C) (l : List A) (w : List B) :
    List.zipWith f w l = (l.zip w).map (fun p => f p.2 p.1) := by
  induction l generalizing w with
  | nil => cases w <;> rfl
  | cons a rest ih =>
    cases w with
    | nil => rfl
    | cons b ws => simp [ih]

theorem zip_replicate_length {A B : Type} (l : List A) (c : B) :
    l.zip (List.replicate l.length c) = l.map (fun a => (a, c)) := by
  induction l with
  | nil => rfl
  | cons a rest ih => simp [List.replicate_succ, ih]

theorem rmsdEvaluator_perm (sqrt : K → K) (p q : List (Point3D K)) (m m1 : MatchVectType)
    (w w1 : List K) (h : (m.zip w).Perm (m1.zip w1)) (hl : m.length = w.length)
    (hl1 : m1.length = w1.length) :
    rmsdEvaluator sqrt p q w m = rmsdEvaluator sqrt p q w1 m1 := by
  have hlen : m.length = m1.length := by
    have := h.length_eq
    simp [List.length_zip, hl.symm, hl1.symm] at this
    exact this
  unfold rmsdEvaluator
  rw [zipWith_eq_map_zip, zipWith_eq_map_zip, hlen]
  rw [(h.map _).sum_eq]

theorem rmsOfMatch_perm (env : Env G T K) (prb ref : ROMol G K) (pc rc : Int)
    (m m1 : MatchVectType) (w w1 : List K) (h : (m.zip w).Perm (m1.zip w1))
    (hl : m.length = w.length) (hl1 : m1.length = w1.length) :
    rmsOfMatch env prb ref pc rc w m = rmsOfMatch env prb ref pc rc w1 m1 := by
  have hperm : m.Perm m1 := by
    have := h.map Prod.fst
    rw [List.map_fst_zip _ _ (le_of_eq hl), List.map_fst_zip _ _ (le_of_eq hl1)] at this
    exact this
  cases hp : prb.getConformer pc with
  | error e => simp [rmsOfMatch, hp]
  | ok c =>
    cases hr : ref.getConformer rc with
    | error e => simp [rmsOfMatch, hp, hr]
    | ok rcf =>
      by_cases hv : ∀ pr ∈ m, pr.1 < c.positions.length ∧ pr.2 < rcf.positions.length
      · have hv1 : ∀ pr ∈ m1, pr.1 < c.positions.length ∧ pr.2 < rcf.positions.length :=
          fun pr hpr => hv pr (hperm.mem_iff.mpr hpr)
        rw [rmsOfMatch_valid env prb ref pc rc w m c rcf hp hr hv,
          rmsOfMatch_valid env prb ref pc rc w1 m1 c rcf hp hr hv1,
          if_pos (le_of_eq hl), if_pos (le_of_eq hl1),
          rmsdEvaluator_perm env.sqrt _ _ m m1 w w1 h hl hl1]
      · have hv1 : ¬ ∀ pr ∈ m1, pr.1 < c.positions.length ∧ pr.2 < rcf.positions.length :=
          fun hall => hv (fun pr hpr => hall pr (hperm.mem_iff.mp hpr))
        rw [rmsOfMatch_invalid env prb ref pc rc w m c rcf hp hr hv,
          rmsOfMatch_invalid env prb ref pc rc w1 m1 c rcf hp hr hv1]

theorem CalcRMS_single (env : Env G T K) (prbMol refMol : ROMol G K) (prbCid refCid : Int)
    (m : MatchVectType) (maxMatches : Int) (weights : Option (List K)) (wts : List K)
    (hw : (match weights with
        | some w => if m.length = w.length then Except.ok w else Except.error Exn.Invariant
        | none => Except.ok (List.replicate m.length (1 : K))) = .ok wts) :
    CalcRMS env prbMol refMol prbCid refCid [m] maxMatches weights =
      match rmsOfMatch env prbMol refMol prbCid refCid wts m with
      | .error e => ⟨.error e, prbMol⟩
      | .ok r => ⟨.ok (if r < 1e300 then r else 1e300), prbMol⟩ := by
  rw [CalcRMS_cons, hw]
  simp only [List.length_singleton, bestLoop, List.getElem?_cons_zero]
  cases hr : rmsOfMatch env prbMol refMol prbCid refCid wts m with
  | error e => rfl
  | ok r =>
    simp only
    by_cases h : r < 1e300
    · simp only [h, if_true]
    · simp only [h, if_false]

/-- C8, as amended. The outcome of `CalcRMS` for a single correspondence (its
score, or the exception) is unchanged when the pair list is replaced by a
permutation of itself, provided the weight vector is absent (all ones) or the
weights are carried along with their pairs by the same permutation. -/
theorem CalcRMS_perm (env : Env G T K) (prbMol refMol : ROMol G K) (prbCid refCid : Int)
    (maxMatches : Int) (m m1 : MatchVectType) (w w1 : List K) :
    (m.Perm m1 →
      CalcRMS env prbMol refMol prbCid refCid [m] maxMatches none =
        CalcRMS env prbMol refMol prbCid refCid [m1] maxMatches none) ∧
    (m.length = w.length → m1.length = w1.length → (m.zip w).Perm (m1.zip w1) →
      CalcRMS env prbMol refMol prbCid refCid [m] maxMatches (some w) =
        CalcRMS env prbMol refMol prbCid refCid [m1] maxMatches (some w1)) := by
  constructor
  · intro hperm
    rw [CalcRMS_single env prbMol refMol prbCid refCid m maxMatches none _ rfl,
      CalcRMS_single env prbMol refMol prbCid refCid m1 maxMatches none _ rfl]
    have hz : (m.zip (List.replicate m.length (1 : K))).Perm
        (m1.zip (List.replicate m1.length (1 : K))) := by
      rw [zip_replicate_length, zip_replicate_length]
      exact hperm.map _
    rw [rmsOfMatch_perm env prbMol refMol prbCid refCid m m1 _ _ hz (by simp) (by simp)]
  · intro hl hl1 hz
    rw [CalcRMS_single env prbMol refMol prbCid refCid m maxMatches (some w) w (by simp [hl]),
      CalcRMS_single env prbMol refMol prbCid refCid m1 maxMatches (some w1) w1 (by simp [hl1]),
      rmsOfMatch_perm env prbMol refMol prbCid refCid m m1 w w1 hz hl hl1]

/-- C8, counterexample. Probe atoms at (0,0,0) and (2,0,0), reference atoms both
at the origin, weights (2, 8): the correspondence [(0,0),(1,1)] scores 4, the
same pairs in the order [(1,1),(0,0)] score 2. -/
theorem CalcRMS_perm_changes_score :
    ([(0, 0), (1, 1)] : MatchVectType).Perm [(1, 1), (0, 0)] ∧
    (CalcRMS ratEnv spreadProbe pointRef 0 0 [[(0, 0), (1, 1)]] 0 (some [2, 8])).result =
      .ok 4 ∧
    (CalcRMS ratEnv spreadProbe pointRef 0 0 [[(1, 1), (0, 0)]] 0 (some [2, 8])).result =
      .ok 2 := by
  refine ⟨List.Perm.swap _ _ _, ?_, ?_⟩
  · norm_num [CalcRMS, bestLoop, rmsOfMatch, spreadProbe, pointRef, ROMol.getConformer,
      ROMol.getConformerRef, findConf, collectPoints, Conformer.getAtomPos, ssrLoop,
      Point3D.sub, Point3D.lengthSq, ratEnv, translationEnv, rat_sqrt_sixteen, getElem_one_cons]
  · norm_num [CalcRMS, bestLoop, rmsOfMatch, spreadProbe, pointRef, ROMol.getConformer,
      ROMol.getConformerRef, findConf, collectPoints, Conformer.getAtomPos, ssrLoop,
      Point3D.sub, Point3D.lengthSq, ratEnv, translationEnv, rat_sqrt_four, getElem_one_cons]

/-- C8, witness of the amended statement: the pairs [(0,0),(1,1)] with weights
(2, 8) and the pairs [(1,1),(0,0)] with weights (8, 2). -/
theorem CalcRMS_perm_witness :
    ([(0, 0), (1, 1)] : MatchVectType).Perm [(1, 1), (0, 0)] ∧
    ([(0, 0), (1, 1)] : MatchVectType).length = ([2, 8] : List ℚ).length ∧
    ([(1, 1), (0, 0)] : MatchVectType).length = ([8, 2] : List ℚ).length ∧
    (([(0, 0), (1, 1)] : MatchVectType).zip ([2, 8] : List ℚ)).Perm
      (([(1, 1), (0, 0)] : MatchVectType).zip ([8, 2] : List ℚ)) ∧
    CalcRMS ratEnv spreadProbe pointRef 0 0 [[(0, 0), (1, 1)]] 0 none =
      CalcRMS ratEnv spreadProbe pointRef 0 0 [[(1, 1), (0, 0)]] 0 none ∧
    CalcRMS ratEnv spreadProbe pointRef 0 0 [[(0, 0), (1, 1)]] 0 (some [2, 8]) =
      CalcRMS ratEnv spreadProbe pointRef 0 0 [[(1, 1), (0, 0)]] 0 (some [8, 2]) :=
  ⟨List.Perm.swap _ _ _, rfl, rfl, List.Perm.swap _ _ _,
    (CalcRMS_perm ratEnv spreadProbe pointRef 0 0 0 [(0, 0), (1, 1)] [(1, 1), (0, 0)]
      [2, 8] [8, 2]).1 (List.Perm.swap _ _ _),
    (CalcRMS_perm ratEnv spreadProbe pointRef 0 0 0 [(0, 0), (1, 1)] [(1, 1), (0, 0)]
      [2, 8] [8, 2]).2 rfl rfl (List.Perm.swap _ _ _)⟩

/-- C5, evaluation at the failing input. Weights (2, 2), candidates
[(0,0),(1,1)] and [(0,0)]: the second candidate has one pair and the weight
vector two entries, and `CalcRMS` returns 0, the score of the second candidate,
instead of failing. -/
theorem CalcRMS_accepts_short_candidate :
    ([(0, 0)] : MatchVectType).length ≠ ([2, 2] : List ℚ).length ∧
    CalcRMS ratEnv spreadProbe pointRef 0 0 [[(0, 0), (1, 1)], [(0, 0)]] 0 (some [2, 2]) =
      ⟨.ok 0, spreadProbe⟩ := by
  refine ⟨by decide, ?_⟩
  norm_num [CalcRMS, bestLoop, rmsOfMatch, spreadProbe, pointRef, ROMol.getConformer,
    ROMol.getConformerRef, findConf, collectPoints, Conformer.getAtomPos, ssrLoop,
    Point3D.sub, Point3D.lengthSq, ratEnv, translationEnv, rat_sqrt_four, rat_sqrt_zero,
    getElem_one_cons]

/-! ## Lemmas: pointers to atom positions -/

theorem pushAtomPositions_valid (j : Nat) (conf : Conformer K) (ids : List Nat)
    (hv : ∀ a ∈ ids, a < conf.positions.length) :
    pushAtomPositions j conf ids = .ok (ids.map (fun a => (j, a))) := by
  induction ids with
  | nil => rfl
  | cons a rest ih =>
    have ha : a < conf.positions.length := hv a (List.mem_cons_self _ _)
    have hg : conf.positions[a]? = some conf.positions[a] := by simp [ha]
    simp only [pushAtomPositions, Conformer.getAtomPos, hg,
      ih (fun b hb => hv b (List.mem_cons_of_mem _ hb)), List.map_cons]

theorem pushAtomPositions_invalid (j : Nat) (conf : Conformer K) (ids : List Nat)
    (hv : ¬ ∀ a ∈ ids, a < conf.positions.length) :
    pushAtomPositions j conf ids = .error .Invariant := by
  induction ids with
  | nil => exact absurd (fun a ha => by simp at ha) hv
  | cons a rest ih =>
    by_cases ha : a < conf.positions.length
    · have hg : conf.positions[a]? = some conf.positions[a] := by simp [ha]
      have hrest : ¬ ∀ b ∈ rest, b < conf.positions.length := by
        intro hall
        apply hv
        intro b hb
        rcases List.mem_cons.mp hb with rfl | hb
        · exact ha
        · exact hall b hb
      simp only [pushAtomPositions, Conformer.getAtomPos, hg, ih hrest]
    · have hg : conf.positions[a]? = none := by simp; omega
      simp only [pushAtomPositions, Conformer.getAtomPos, hg]

theorem readPoints_map (mol : ROMol G K) (j : Nat) (conf : Conformer K) (ids : List Nat)
    (hj : mol.confs[j]? = some conf) (hv : ∀ a ∈ ids, a < conf.positions.length) :
    readPoints mol (ids.map (fun a => (j, a))) =
      ids.map (fun a => conf.positions.getD a Point3D.origin) := by
  induction ids with
  | nil => rfl
  | cons a rest ih =>
    have ha : a < conf.positions.length := hv a (List.mem_cons_self _ _)
    have hg : conf.positions[a]? = some conf.positions[a] := by simp [ha]
    have := ih (fun b hb => hv b (List.mem_cons_of_mem _ hb))
    unfold readPoints at this ⊢
    rw [List.map_cons, List.filterMap_cons, List.map_cons, this]
    simp only [hj, Option.bind, hg, List.getD_eq_getElem?_getD, Option.getD_some]

theorem map_getD_range {A : Type} (l : List A) (d : A) :
    (List.range l.length).map (fun a => l.getD a d) = l := by
  apply List.ext_getElem
  · simp
  · intro i h1 h2
    simp [List.getD_eq_getElem?_getD, h2]

theorem fill_of_selected (j : Nat) (conf : Conformer K) (atomIds : Option (List Nat)) :
    (∀ e, selectedPoints conf atomIds = .error e →
      _fillAtomPositions j conf atomIds = .error e) ∧
    (∀ pts, selectedPoints conf atomIds = .ok pts →
      ∃ ptrs, _fillAtomPositions j conf atomIds = .ok ptrs ∧ ptrs.length = pts.length ∧
        ∀ mol1 : ROMol G K, mol1.confs[j]? = some conf → readPoints mol1 ptrs = pts) := by
  cases atomIds with
  | none =>
    have hv : ∀ a ∈ List.range conf.positions.length, a < conf.positions.length :=
      fun a ha => List.mem_range.mp ha
    constructor
    · intro e he
      simp [selectedPoints] at he
    · intro pts hp
      simp only [selectedPoints] at hp
      have hp1 : conf.positions = pts := by simpa using hp
      subst hp1
      refine ⟨_, by
        simp only [_fillAtomPositions, Conformer.getNumAtoms]
        exact pushAtomPositions_valid j conf _ hv, by simp, ?_⟩
      intro mol1 hj
      rw [readPoints_map mol1 j conf _ hj hv, map_getD_range]
  | some ids =>
    by_cases hv : ∀ a ∈ ids, a < conf.positions.length
    · constructor
      · intro e he
        simp only [selectedPoints, if_pos hv] at he
        cases he
      · intro pts hp
        simp only [selectedPoints, if_pos hv] at hp
        have hp1 : ids.map (fun a => conf.positions.getD a Point3D.origin) = pts := by
          simpa using hp
        subst hp1
        refine ⟨_, by
          simp only [_fillAtomPositions]
          exact pushAtomPositions_valid j conf _ hv, by simp, ?_⟩
        intro mol1 hj
        exact readPoints_map mol1 j conf _ hj hv
    · constructor
      · intro e he
        simp only [selectedPoints, if_neg hv] at he
        have he1 : Exn.Invariant = e := by simpa using he
        subst he1
        simp only [_fillAtomPositions]
        exact pushAtomPositions_invalid j conf _ hv
      · intro pts hp
        simp only [selectedPoints, if_neg hv] at hp
        cases hp

theorem alignConformer_eq (env : Env G T K) (atomIds : Option (List Nat))
    (weights : Option (List K)) (reflect : Bool) (maxIters : Nat)
    (refPtrs : List Point3DConstPtr) (refPts : List (Point3D K)) (r j : Nat)
    (refCnf conf : Conformer K) (mol : ROMol G K) (l : Option (List K))
    (hr : mol.confs[r]? = some refCnf) (hj : mol.confs[j]? = some conf)
    (hrp : _fillAtomPositions r refCnf atomIds = .ok refPtrs)
    (hsel : selectedPoints refCnf atomIds = .ok refPts) :
    alignConformer env atomIds weights reflect maxIters refPtrs j conf mol l =
      alignOnto env atomIds weights reflect maxIters refPts j conf mol l := by
  obtain ⟨ptrs0, h0, _, hread0⟩ := (@fill_of_selected G K _ r refCnf atomIds).2 refPts hsel
  rw [hrp] at h0
  have h0eq : refPtrs = ptrs0 := by simpa using h0
  subst h0eq
  have hrd : readPoints mol refPtrs = refPts := hread0 mol hr
  cases hs : selectedPoints conf atomIds with
  | error e =>
    have := (@fill_of_selected G K _ j conf atomIds).1 e hs
    simp only [alignConformer, alignOnto, this, hs]
  | ok pts =>
    obtain ⟨ptrs, h1, h2, h3⟩ := (@fill_of_selected G K _ j conf atomIds).2 pts hs
    simp only [alignConformer, alignOnto, h1, hs, hrd, h3 mol hj, h2]

/-! ## Lemmas: the loops of alignMolConformers -/

theorem getConformerRef_setConf_idx (mol : ROMol G K) (id : Int) (k : Nat)
    (old c1 : Conformer K) (hk : mol.confs[k]? = some old) (hid : c1.id = old.id)
    (j : Nat) (cf : Conformer K) (h : (mol.setConf k c1).getConformerRef id = .ok (j, cf)) :
    ∃ c0, mol.getConformerRef id = .ok (j, c0) := by
  rw [getConformerRef_setConf mol id k old c1 hk hid] at h
  cases hg : mol.getConformerRef id with
  | error e => simp [hg] at h
  | ok p =>
    obtain ⟨j0, c0⟩ := p
    simp [hg] at h
    exact ⟨c0, by rw [h.1]⟩

theorem alignOnto_ok (env : Env G T K) (atomIds : Option (List Nat))
    (weights : Option (List K)) (reflect : Bool) (maxIters : Nat) (refPts : List (Point3D K))
    (j : Nat) (conf : Conformer K) (mol : ROMol G K) (l : Option (List K)) (u : Unit)
    (mol1 : ROMol G K) (l1 : Option (List K))
    (h : alignOnto env atomIds weights reflect maxIters refPts j conf mol l =
      ⟨.ok u, mol1, l1⟩) :
    ∃ pts ssr tr, selectedPoints conf atomIds = .ok pts ∧
      AlignPoints env refPts pts weights reflect maxIters = .ok (ssr, tr) ∧
      mol1 = mol.setConf j (transformConformer env conf tr) ∧
      l1 = l.map (fun x => x ++ [env.sqrt (ssr / (pts.length : K))]) := by
  unfold alignOnto at h
  cases hs : selectedPoints conf atomIds with
  | error e => simp [hs] at h
  | ok pts =>
    cases ha : AlignPoints env refPts pts weights reflect maxIters with
    | error e => simp [hs, ha] at h
    | ok st =>
      obtain ⟨ssr, tr⟩ := st
      simp [hs, ha] at h
      exact ⟨pts, ssr, tr, rfl, ha, h.1.symm, h.2.symm⟩

theorem alignOnto_error (env : Env G T K) (atomIds : Option (List Nat))
    (weights : Option (List K)) (reflect : Bool) (maxIters : Nat) (refPts : List (Point3D K))
    (j : Nat) (conf : Conformer K) (mol : ROMol G K) (l : Option (List K)) (e : Exn)
    (mol1 : ROMol G K) (l1 : Option (List K))
    (h : alignOnto env atomIds weights reflect maxIters refPts j conf mol l =
      ⟨.error e, mol1, l1⟩) : mol1 = mol ∧ l1 = l := by
  unfold alignOnto at h
  cases hs : selectedPoints conf atomIds with
  | error e1 =>
    simp [hs] at h
    exact ⟨h.2.1.symm, h.2.2.symm⟩
  | ok pts =>
    cases ha : AlignPoints env refPts pts weights reflect maxIters with
    | error e1 =>
      simp [hs, ha] at h
      exact ⟨h.2.1.symm, h.2.2.symm⟩
    | ok st =>
      obtain ⟨ssr, tr⟩ := st
      simp [hs, ha] at h

theorem idsLoop_eq (env : Env G T K) (atomIds : Option (List Nat))
    (weights : Option (List K)) (reflect : Bool) (maxIters : Nat)
    (refPtrs : List Point3DConstPtr) (refPts : List (Point3D K)) (r : Nat)
    (refCnf : Conformer K)
    (hrp : _fillAtomPositions r refCnf atomIds = .ok refPtrs)
    (hsel : selectedPoints refCnf atomIds = .ok refPts)
    (ids : List Nat) (i : Nat) (hi : 1 ≤ i) (mol : ROMol G K) (l : Option (List K))
    (hr : mol.confs[r]? = some refCnf)
    (hno : ∀ c ∈ ids, ∀ j cf, mol.getConformerRef (toInt c) = .ok (j, cf) → j ≠ r) :
    idsLoop env atomIds weights reflect maxIters refPtrs ids i mol l =
      alignEntries env atomIds weights reflect maxIters refPts ids mol l := by
  induction ids generalizing i mol l with
  | nil => rfl
  | cons c rest ih =>
    have hi1 : ¬ (i + 1 = 1) := by omega
    simp only [idsLoop, alignEntries, hi1, if_false]
    cases hg : mol.getConformerRef (toInt c) with
    | error e => rfl
    | ok p =>
      obtain ⟨j, conf⟩ := p
      have hj := getConformerRef_ok _ _ _ _ hg
      have hjr : j ≠ r := hno c (List.mem_cons_self _ _) j conf hg
      simp only
      rw [alignConformer_eq env atomIds weights reflect maxIters refPtrs refPts r j refCnf conf
        mol l hr hj hrp hsel]
      cases ho : alignOnto env atomIds weights reflect maxIters refPts j conf mol l with
      | mk res mol1 l1 =>
        cases res with
        | error e => rfl
        | ok u =>
          simp only
          obtain ⟨pts, ssr, tr, _, _, hm, _⟩ := alignOnto_ok _ _ _ _ _ _ _ _ _ _ _ _ _ ho
          subst hm
          apply ih (i + 1) (by omega)
          · simp only [ROMol.setConf]
            rw [List.getElem?_set_ne hjr]
            exact hr
          · intro c1 hc1 j1 cf1 hl
            obtain ⟨c0, h0⟩ := getConformerRef_setConf_idx mol (toInt c1) j conf
              (transformConformer env conf tr) hj rfl j1 cf1 hl
            exact hno c1 (List.mem_cons_of_mem _ hc1) j1 c0 h0

theorem storedLoop_eq (env : Env G T K) (atomIds : Option (List Nat))
    (weights : Option (List K)) (reflect : Bool) (maxIters : Nat)
    (refPtrs : List Point3DConstPtr) (refPts : List (Point3D K)) (refCnf : Conformer K)
    (hrp : _fillAtomPositions 0 refCnf atomIds = .ok refPtrs)
    (hsel : selectedPoints refCnf atomIds = .ok refPts)
    (todo : List (Conformer K)) (n j i : Nat) (hi : 1 ≤ i) (hj : 1 ≤ j) (mol : ROMol G K)
    (l : Option (List K)) (hr : mol.confs[0]? = some refCnf)
    (hd : mol.confs.drop j = todo) (hn : n = todo.length) :
    storedLoop env atomIds weights reflect maxIters refPtrs n j i mol l =
      alignStored env atomIds weights reflect maxIters refPts todo j mol l := by
  induction todo generalizing n j i mol l with
  | nil =>
    subst hn
    rfl
  | cons conf rest ih =>
    subst hn
    have hjc : mol.confs[j]? = some conf := by
      have := congrArg (fun x => x[0]?) hd
      simpa using this
    have hi1 : ¬ (i + 1 = 1) := by omega
    simp only [List.length_cons, storedLoop, alignStored, hjc, hi1, if_false]
    rw [alignConformer_eq env atomIds weights reflect maxIters refPtrs refPts 0 j refCnf conf
      mol l hr hjc hrp hsel]
    cases ho : alignOnto env atomIds weights reflect maxIters refPts j conf mol l with
    | mk res mol1 l1 =>
      cases res with
      | error e => rfl
      | ok u =>
        simp only
        obtain ⟨pts, ssr, tr, _, _, hm, _⟩ := alignOnto_ok _ _ _ _ _ _ _ _ _ _ _ _ _ ho
        subst hm
        apply ih rest.length (j + 1) (i + 1) (by omega) (by omega)
        · simp only [ROMol.setConf]
          rw [List.getElem?_set_ne (by omega)]
          exact hr
        · simp only [ROMol.setConf]
          rw [List.drop_set_of_lt _ _ (by omega)]
          have := congrArg (List.drop 1) hd
          simpa [List.drop_drop, Nat.add_comm] using this
        · rfl

theorem alignEntries_ok (env : Env G T K) (atomIds : Option (List Nat))
    (weights : Option (List K)) (reflect : Bool) (maxIters : Nat) (refPts : List (Point3D K))
    (r : Nat) (ids : List Nat) (mol : ROMol G K) (l : Option (List K)) (u : Unit)
    (mol1 : ROMol G K) (l1 : Option (List K))
    (hno : ∀ c ∈ ids, ∀ j cf, mol.getConformerRef (toInt c) = .ok (j, cf) → j ≠ r)
    (h : alignEntries env atomIds weights reflect maxIters refPts ids mol l =
      ⟨.ok u, mol1, l1⟩) :
    mol1.confs[r]? = mol.confs[r]? ∧
    ∃ rs : List K, rs.length = ids.length ∧ l1 = l.map (fun x => x ++ rs) := by
  induction ids generalizing mol l with
  | nil =>
    simp [alignEntries] at h
    obtain ⟨rfl, rfl⟩ := h
    exact ⟨rfl, [], rfl, by cases l <;> simp⟩
  | cons c rest ih =>
    simp only [alignEntries] at h
    cases hg : mol.getConformerRef (toInt c) with
    | error e => simp [hg] at h
    | ok p =>
      obtain ⟨j, conf⟩ := p
      have hj := getConformerRef_ok _ _ _ _ hg
      have hjr : j ≠ r := hno c (List.mem_cons_self _ _) j conf hg
      simp only [hg] at h
      cases ho : alignOnto env atomIds weights reflect maxIters refPts j conf mol l with
      | mk res mol2 l2 =>
        cases res with
        | error e => simp [ho] at h
        | ok u2 =>
          simp only [ho] at h
          obtain ⟨pts, ssr, tr, _, _, hm, hl⟩ := alignOnto_ok _ _ _ _ _ _ _ _ _ _ _ _ _ ho
          subst hm
          have hno2 : ∀ c1 ∈ rest, ∀ j1 cf1,
              (mol.setConf j (transformConformer env conf tr)).getConformerRef (toInt c1) =
                .ok (j1, cf1) → j1 ≠ r := by
            intro c1 hc1 j1 cf1 hl1
            obtain ⟨c0, h0⟩ := getConformerRef_setConf_idx mol (toInt c1) j conf
              (transformConformer env conf tr) hj rfl j1 cf1 hl1
            exact hno c1 (List.mem_cons_of_mem _ hc1) j1 c0 h0
          obtain ⟨k1, rs, k2, k3⟩ := ih _ _ hno2 h
          refine ⟨?_, env.sqrt (ssr / (pts.length : K)) :: rs, by simp [k2], ?_⟩
          · rw [k1]
            simp only [ROMol.setConf]
            exact List.getElem?_set_ne hjr
          · rw [k3, hl]
            cases l <;> simp

theorem alignStored_ok (env : Env G T K) (atomIds : Option (List Nat))
    (weights : Option (List K)) (reflect : Bool) (maxIters : Nat) (refPts : List (Point3D K))
    (todo : List (Conformer K)) (j : Nat) (hj : 1 ≤ j) (mol : ROMol G K)
    (l : Option (List K)) (u : Unit) (mol1 : ROMol G K) (l1 : Option (List K))
    (h : alignStored env atomIds weights reflect maxIters refPts todo j mol l =
      ⟨.ok u, mol1, l1⟩) :
    mol1.confs[0]? = mol.confs[0]? ∧
    ∃ rs : List K, rs.length = todo.length ∧ l1 = l.map (fun x => x ++ rs) := by
  induction todo generalizing j mol l with
  | nil =>
    simp [alignStored] at h
    obtain ⟨rfl, rfl⟩ := h
    exact ⟨rfl, [], rfl, by cases l <;> simp⟩
  | cons conf rest ih =>
    simp only [alignStored] at h
    cases ho : alignOnto env atomIds weights reflect maxIters refPts j conf mol l with
    | mk res mol2 l2 =>
      cases res with
      | error e => simp [ho] at h
      | ok u2 =>
        simp only [ho] at h
        obtain ⟨pts, ssr, tr, _, _, hm, hl⟩ := alignOnto_ok _ _ _ _ _ _ _ _ _ _ _ _ _ ho
        subst hm
        obtain ⟨k1, rs, k2, k3⟩ := ih (j + 1) (by omega) _ _ h
        refine ⟨?_, env.sqrt (ssr / (pts.length : K)) :: rs, by simp [k2], ?_⟩
        · rw [k1]
          simp only [ROMol.setConf]
          exact List.getElem?_set_ne (by omega)
        · rw [k3, hl]
          cases l <;> simp

theorem pushAtomPositions_length (j : Nat) (c1 c2 : Conformer K) (ids : List Nat)
    (h : c1.positions.length = c2.positions.length) :
    pushAtomPositions j c1 ids = pushAtomPositions j c2 ids := by
  by_cases hv : ∀ a ∈ ids, a < c1.positions.length
  · rw [pushAtomPositions_valid j c1 ids hv,
      pushAtomPositions_valid j c2 ids (fun a ha => by rw [← h]; exact hv a ha)]
  · rw [pushAtomPositions_invalid j c1 ids hv,
      pushAtomPositions_invalid j c2 ids (fun hall => hv (fun a ha => by rw [h]; exact hall a ha))]

theorem fill_length (j : Nat) (c1 c2 : Conformer K) (atomIds : Option (List Nat))
    (h : c1.positions.length = c2.positions.length) :
    _fillAtomPositions j c1 atomIds = _fillAtomPositions j c2 atomIds := by
  cases atomIds with
  | none =>
    simp only [_fillAtomPositions, Conformer.getNumAtoms, h]
    exact pushAtomPositions_length j c1 c2 _ h
  | some ids =>
    simp only [_fillAtomPositions]
    exact pushAtomPositions_length j c1 c2 _ h

theorem selectedPoints_length (c1 c2 : Conformer K) (atomIds : Option (List Nat))
    (pts : List (Point3D K)) (h : c1.positions.length = c2.positions.length)
    (hs : selectedPoints c1 atomIds = .ok pts) : ∃ pts2, selectedPoints c2 atomIds = .ok pts2 := by
  cases atomIds with
  | none => exact ⟨_, rfl⟩
  | some ids =>
    by_cases hv : ∀ a ∈ ids, a < c1.positions.length
    · have hv2 : ∀ a ∈ ids, a < c2.positions.length := fun a ha => by rw [← h]; exact hv a ha
      exact ⟨ids.map (fun a => c2.positions.getD a Point3D.origin),
        by simp only [selectedPoints, if_pos hv2]⟩
    · simp only [selectedPoints, if_neg hv] at hs
      cases hs

theorem idsLoop_live (env : Env G T K) (atomIds : Option (List Nat))
    (weights : Option (List K)) (reflect : Bool) (maxIters : Nat)
    (refPtrs : List Point3DConstPtr) (refPts : List (Point3D K)) (r : Nat)
    (refCnf : Conformer K)
    (hrp : _fillAtomPositions r refCnf atomIds = .ok refPtrs)
    (hsel : selectedPoints refCnf atomIds = .ok refPts)
    (ids : List Nat) (i : Nat) (hi : 1 ≤ i) (mol : ROMol G K) (l : Option (List K))
    (hr : ∃ refNow, mol.confs[r]? = some refNow ∧
      refNow.positions.length = refCnf.positions.length) :
    idsLoop env atomIds weights reflect maxIters refPtrs ids i mol l =
      alignEntriesLive env atomIds weights reflect maxIters r ids mol l := by
  induction ids generalizing i mol l with
  | nil => rfl
  | cons c rest ih =>
    obtain ⟨refNow, hr1, hr2⟩ := hr
    have hi1 : ¬ (i + 1 = 1) := by omega
    simp only [idsLoop, alignEntriesLive, hi1, if_false]
    cases hg : mol.getConformerRef (toInt c) with
    | error e => rfl
    | ok p =>
      obtain ⟨j, conf⟩ := p
      have hj := getConformerRef_ok _ _ _ _ hg
      obtain ⟨ptsNow, hnow⟩ := selectedPoints_length refCnf refNow atomIds refPts hr2.symm hsel
      have hrpNow : _fillAtomPositions r refNow atomIds = .ok refPtrs := by
        rw [fill_length r refNow refCnf atomIds hr2]; exact hrp
      have href : referencePoints mol r atomIds = .ok ptsNow := by
        simp only [referencePoints, hr1, hnow]
      simp only [href]
      rw [alignConformer_eq env atomIds weights reflect maxIters refPtrs ptsNow r j refNow conf
        mol l hr1 hj hrpNow hnow]
      cases ho : alignOnto env atomIds weights reflect maxIters ptsNow j conf mol l with
      | mk res mol1 l1 =>
        cases res with
        | error e => rfl
        | ok u =>
          simp only
          obtain ⟨pts, ssr, tr, _, _, hm, _⟩ := alignOnto_ok _ _ _ _ _ _ _ _ _ _ _ _ _ ho
          subst hm
          apply ih (i + 1) (by omega)
          by_cases hjr : j = r
          · subst hjr
            rw [hr1] at hj
            have hc : refNow = conf := by simpa using hj
            subst hc
            refine ⟨transformConformer env refNow tr, ?_, ?_⟩
            · simp only [ROMol.setConf]
              rw [List.getElem?_set_self]
              have hlt : j < mol.confs.length := by
                by_contra hc
                have : mol.confs[j]? = none := by simp; omega
                rw [this] at hr1; simp at hr1
              simp [hlt]
            · simp only [transformConformer, List.length_map]
              exact hr2
          · refine ⟨refNow, ?_, hr2⟩
            simp only [ROMol.setConf]
            rw [List.getElem?_set_ne hjr]
            exact hr1

theorem alignEntriesLive_ok (env : Env G T K) (atomIds : Option (List Nat))
    (weights : Option (List K)) (reflect : Bool) (maxIters : Nat) (r : Nat)
    (ids : List Nat) (mol : ROMol G K) (l : Option (List K)) (u : Unit)
    (mol1 : ROMol G K) (l1 : Option (List K))
    (h : alignEntriesLive env atomIds weights reflect maxIters r ids mol l =
      ⟨.ok u, mol1, l1⟩) :
    ∃ rs : List K, rs.length = ids.length ∧ l1 = l.map (fun x => x ++ rs) := by
  induction ids generalizing mol l with
  | nil =>
    simp [alignEntriesLive] at h
    obtain ⟨_, rfl⟩ := h
    exact ⟨[], rfl, by cases l <;> simp⟩
  | cons c rest ih =>
    simp only [alignEntriesLive] at h
    cases hg : mol.getConformerRef (toInt c) with
    | error e => simp [hg] at h
    | ok p =>
      obtain ⟨j, conf⟩ := p
      simp only [hg] at h
      cases hrf : referencePoints mol r atomIds with
      | error e => simp [hrf] at h
      | ok refPts =>
        simp only [hrf] at h
        cases ho : alignOnto env atomIds weights reflect maxIters refPts j conf mol l with
        | mk res mol2 l2 =>
          cases res with
          | error e => simp [ho] at h
          | ok u2 =>
            simp only [ho] at h
            obtain ⟨pts, ssr, tr, _, _, _, hl⟩ := alignOnto_ok _ _ _ _ _ _ _ _ _ _ _ _ _ ho
            obtain ⟨rs, k2, k3⟩ := ih _ _ h
            refine ⟨env.sqrt (ssr / (pts.length : K)) :: rs, by simp [k2], ?_⟩
            rw [k3, hl]
            cases l <;> simp

/-- C7, as amended. For a structure with at least one conformation:
with an explicit list `front :: tail`, the reference is the conformation
`getConformer` returns for `front` (stored at place `r`), and for every list the
call is the specification's pass over the entries of `tail` in the given order:
the aligner runs on the selected atoms of the conformation the entry names
against the coordinates of the reference as they stand, its transform is applied
to that conformation, and one RMS `sqrt (ssr / number of fitted atoms)` is
appended; a call that returns has grown the collector by exactly one RMS per
entry of `tail`. When no entry of `tail` names the reference again, the pass is
against the coordinates the reference had at the start and the reference is left
as it was. With an empty list nothing is done; without a list the reference is
the first stored conformation, the pass is over the stored conformations after
it in storage order, the reference is left as it was and the collector grows by
one RMS per stored conformation after the first. -/
theorem alignMolConformers_refines (env : Env G T K) (mol : ROMol G K)
    (atomIds : Option (List Nat)) (weights : Option (List K)) (reflect : Bool)
    (maxIters : Nat) (RMSlist : Option (List K)) :
    (∀ (front : Nat) (tail : List Nat) (r : Nat) (refCnf : Conformer K)
        (refPts : List (Point3D K)),
      mol.getConformerRef (toInt front) = .ok (r, refCnf) →
      selectedPoints refCnf atomIds = .ok refPts →
      alignMolConformers env mol atomIds (some (front :: tail)) weights reflect maxIters
          RMSlist =
        alignEntriesLive env atomIds weights reflect maxIters r tail mol RMSlist ∧
      (∀ mol1 l1,
        alignMolConformers env mol atomIds (some (front :: tail)) weights reflect maxIters
          RMSlist = ⟨.ok (), mol1, l1⟩ →
        ∃ rs : List K, rs.length = tail.length ∧ l1 = RMSlist.map (fun x => x ++ rs)) ∧
      ((∀ c ∈ tail, ∀ j cf, mol.getConformerRef (toInt c) = .ok (j, cf) → j ≠ r) →
        alignMolConformers env mol atomIds (some (front :: tail)) weights reflect maxIters
            RMSlist =
          alignEntries env atomIds weights reflect maxIters refPts tail mol RMSlist ∧
        ∀ mol1 l1,
          alignMolConformers env mol atomIds (some (front :: tail)) weights reflect maxIters
            RMSlist = ⟨.ok (), mol1, l1⟩ →
          mol1.confs[r]? = some refCnf)) ∧
    (∀ (c0 : Conformer K) (rest : List (Conformer K)) (refPts : List (Point3D K)),
      mol.confs = c0 :: rest →
      selectedPoints c0 atomIds = .ok refPts →
      alignMolConformers env mol atomIds (some []) weights reflect maxIters RMSlist =
        ⟨.ok (), mol, RMSlist⟩ ∧
      alignMolConformers env mol atomIds none weights reflect maxIters RMSlist =
        alignStored env atomIds weights reflect maxIters refPts rest 1 mol RMSlist ∧
      ∀ mol1 l1,
        alignMolConformers env mol atomIds none weights reflect maxIters RMSlist =
          ⟨.ok (), mol1, l1⟩ →
        mol1.confs[0]? = some c0 ∧
        ∃ rs : List K, rs.length = rest.length ∧ l1 = RMSlist.map (fun x => x ++ rs)) := by
  constructor
  · intro front tail r refCnf refPts href hsel
    have hr := getConformerRef_ok _ _ _ _ href
    have hnum : ¬ (mol.getNumConformers = 0) := by
      intro h0
      have : mol.confs = [] := List.length_eq_zero.mp h0
      rw [this] at hr
      simp at hr
    obtain ⟨refPtrs, hrp, _, _⟩ := (@fill_of_selected G K _ r refCnf atomIds).2 refPts hsel
    have hloop : alignMolConformers env mol atomIds (some (front :: tail)) weights reflect
        maxIters RMSlist =
        idsLoop env atomIds weights reflect maxIters refPtrs tail 1 mol RMSlist := by
      simp only [alignMolConformers, hnum, if_false, href, hrp, idsLoop]
      rfl
    have hlive : alignMolConformers env mol atomIds (some (front :: tail)) weights reflect
        maxIters RMSlist =
        alignEntriesLive env atomIds weights reflect maxIters r tail mol RMSlist := by
      rw [hloop]
      exact idsLoop_live env atomIds weights reflect maxIters refPtrs refPts r refCnf hrp hsel
        tail 1 (le_refl _) mol RMSlist ⟨refCnf, hr, rfl⟩
    refine ⟨hlive, ?_, ?_⟩
    · intro mol1 l1 hok
      rw [hlive] at hok
      exact alignEntriesLive_ok env atomIds weights reflect maxIters r tail mol RMSlist ()
        mol1 l1 hok
    · intro hno
      have heq : alignMolConformers env mol atomIds (some (front :: tail)) weights reflect
          maxIters RMSlist =
          alignEntries env atomIds weights reflect maxIters refPts tail mol RMSlist := by
        rw [hloop]
        exact idsLoop_eq env atomIds weights reflect maxIters refPtrs refPts r refCnf hrp hsel
          tail 1 (le_refl _) mol RMSlist hr hno
      refine ⟨heq, ?_⟩
      intro mol1 l1 hok
      rw [heq] at hok
      obtain ⟨k1, _⟩ := alignEntries_ok env atomIds weights reflect maxIters refPts r tail mol
        RMSlist () mol1 l1 hno hok
      rw [k1]; exact hr
  · intro c0 rest refPts hc hsel
    have hnum : ¬ (mol.getNumConformers = 0) := by
      simp [ROMol.getNumConformers, hc]
    have href : mol.getConformerRef (-1) = .ok (0, c0) := by
      simp [ROMol.getConformerRef, hc]
    have hr : mol.confs[0]? = some c0 := by simp [hc]
    obtain ⟨refPtrs, hrp, _, _⟩ := (@fill_of_selected G K _ 0 c0 atomIds).2 refPts hsel
    have heq : alignMolConformers env mol atomIds none weights reflect maxIters RMSlist =
        alignStored env atomIds weights reflect maxIters refPts rest 1 mol RMSlist := by
      simp only [alignMolConformers, hnum, if_false, href, hrp]
      have hlen : mol.getNumConformers = rest.length + 1 := by
        simp [ROMol.getNumConformers, hc]
      rw [hlen]
      simp only [storedLoop, hr]
      exact storedLoop_eq env atomIds weights reflect maxIters refPtrs refPts c0 hrp hsel
        rest rest.length 1 1 (le_refl _) (le_refl _) mol RMSlist hr (by simp [hc]) rfl
    refine ⟨?_, heq, ?_⟩
    · simp only [alignMolConformers, hnum, if_false, href, hrp, idsLoop]
    · intro mol1 l1 hok
      rw [heq] at hok
      obtain ⟨k1, k2⟩ := alignStored_ok env atomIds weights reflect maxIters refPts rest 1
        (le_refl _) mol RMSlist () mol1 l1 hok
      exact ⟨by rw [k1]; exact hr, k2⟩

/-! ## alignMolConformers stopped by an unknown conformer id -/

theorem toInt_of_lt (u : Nat) (h : u < 2 ^ 31) : toInt u = (u : Int) := by
  unfold toInt
  have h1 : u % 2 ^ 32 = u := Nat.mod_eq_of_lt (by omega)
  rw [h1, if_pos h]

theorem toInt_zero : toInt 0 = 0 := by
  rw [toInt_of_lt 0 (by norm_num)]; rfl

theorem toInt_one : toInt 1 = 1 := by
  rw [toInt_of_lt 1 (by norm_num)]; rfl

theorem range_one : List.range 1 = [0] := rfl

theorem twoConformers_lookup_zero :
    twoConformers.getConformerRef (toInt 0) = .ok (0, ⟨0, [⟨0, 0, 0⟩]⟩) := by
  simp [toInt_zero, twoConformers, ROMol.getConformerRef, findConf]

theorem twoConformers_lookup_one :
    twoConformers.getConformerRef (toInt 1) = .ok (1, ⟨1, [⟨1, 0, 0⟩]⟩) := by
  simp [toInt_one, twoConformers, ROMol.getConformerRef, findConf]

/-- C7, counterexample. Conformers 0 and 1, explicit list [0, 0], empty collector:
the reference is conformer 0, no conformation other than the reference is
processed, and the call appends one RMS, computed for the reference itself. -/
theorem alignMolConformers_reference_entry :
    twoConformers.getConformerRef (toInt 0) = .ok (0, ⟨0, [⟨0, 0, 0⟩]⟩) ∧
    alignMolConformers ratEnv twoConformers none (some [0, 0]) none false 50 (some []) =
      ⟨.ok (), twoConformers, some [0]⟩ := by
  refine ⟨twoConformers_lookup_zero, ?_⟩
  simp [alignMolConformers, idsLoop, alignConformer, _fillAtomPositions, pushAtomPositions,
    readPoints, toInt_zero, range_one, ROMol.getNumConformers,
    Conformer.getNumAtoms, AlignPoints, ratEnv, translationEnv, translationSolve,
    transformConformer, ROMol.setConf, ROMol.getConformerRef, findConf, Conformer.getAtomPos,
    Point3D.sub, Point3D.add, Point3D.lengthSq, twoConformers, List.zipWith3, rat_sqrt_zero]

theorem twoConformers_tail_one :
    ∀ c ∈ ([1] : List Nat), ∀ j cf,
      twoConformers.getConformerRef (toInt c) = .ok (j, cf) → j ≠ 0 := by
  intro c hc j cf h
  simp at hc
  subst hc
  rw [twoConformers_lookup_one] at h
  simp at h
  omega

/-- C7, witness of the amended statement: conformers 0 and 1, all atoms, empty
collector; the list [0, 1], where no later entry names the reference, and the
list [0, 0] of the counterexample, where the second entry does. -/
theorem alignMolConformers_refines_witness :
    twoConformers.getConformerRef (toInt 0) = .ok (0, ⟨0, [⟨0, 0, 0⟩]⟩) ∧
    selectedPoints (⟨0, [⟨0, 0, 0⟩]⟩ : Conformer ℚ) none = .ok [⟨0, 0, 0⟩] ∧
    (∀ c ∈ ([1] : List Nat), ∀ j cf,
      twoConformers.getConformerRef (toInt c) = .ok (j, cf) → j ≠ 0) ∧
    (alignMolConformers ratEnv twoConformers none (some (0 :: [1])) none false 50 (some []) =
        alignEntries ratEnv none none false 50 [⟨0, 0, 0⟩] [1] twoConformers (some []) ∧
      ∀ mol1 l1,
        alignMolConformers ratEnv twoConformers none (some (0 :: [1])) none false 50
          (some []) = ⟨.ok (), mol1, l1⟩ →
        mol1.confs[0]? = some ⟨0, [⟨0, 0, 0⟩]⟩) ∧
    alignMolConformers ratEnv twoConformers none (some (0 :: [0])) none false 50 (some []) =
      alignEntriesLive ratEnv none none false 50 0 [0] twoConformers (some []) ∧
    (∀ mol1 l1,
      alignMolConformers ratEnv twoConformers none (some (0 :: [0])) none false 50
        (some []) = ⟨.ok (), mol1, l1⟩ →
      ∃ rs : List ℚ, rs.length = ([0] : List Nat).length ∧
        l1 = (some ([] : List ℚ)).map (fun x => x ++ rs)) :=
  ⟨twoConformers_lookup_zero, rfl, twoConformers_tail_one,
    ((alignMolConformers_refines ratEnv twoConformers none none false 50 (some [])).1 0 [1] 0
      ⟨0, [⟨0, 0, 0⟩]⟩ [⟨0, 0, 0⟩] twoConformers_lookup_zero rfl).2.2 twoConformers_tail_one,
    ((alignMolConformers_refines ratEnv twoConformers none none false 50 (some [])).1 0 [0] 0
      ⟨0, [⟨0, 0, 0⟩]⟩ [⟨0, 0, 0⟩] twoConformers_lookup_zero rfl).1,
    ((alignMolConformers_refines ratEnv twoConformers none none false 50 (some [])).1 0 [0] 0
      ⟨0, [⟨0, 0, 0⟩]⟩ [⟨0, 0, 0⟩] twoConformers_lookup_zero rfl).2.1⟩

end MolAlign
end RDKit
